import Mathlib

/-!
Verification of the geometric_solver repository against its specification.

The development is a shallow embedding of the Python sources
(`app/geometry/primitives.py`, `app/geometry/kernels.py`,
`app/solver/heuristic.py`, `app/solver/search.py`) into Lean 4.

Modelling conventions:
* Python floats are idealized as exact rationals (`ℚ`).  `round(x, 10)` is
  modelled as `roundP`, rounding to the nearest multiple of `10 ^ (-10)`
  (Mathlib `round`, i.e. half-up; the concrete inputs used below never sit
  on a tie, so the tie-breaking convention is immaterial).
* `numpy.sqrt` has no exact rational counterpart, so every function that
  calls it takes an explicit square-root oracle `sq : ℚ → ℚ`.  Theorems
  that depend on the numeric meaning of the square root carry hypotheses
  stating that `sq` is faithful at the arguments actually used
  (`0 ≤ sq q` and `(sq q) ^ 2 = q`), and concrete evaluations instantiate
  `sq` with a table of exact square roots (or, for the non-idempotence
  counterexample, a rational approximation whose accuracy is asserted as
  part of the theorem).
* Python `dict`s iterate in insertion order, so they are modelled as
  association lists; `d[k] = v` replaces in place or appends (`assocSet`).
* Python ids are strings; `f"{letter}{n}"` is modelled by `mkId` and
  `k[1:].isdigit()` / `int(k[1:])` by `parse_ord`.
* The `heapq` open list is observable only through `heappop` (minimum by
  `(priority, tie_breaker)`, a total order since tie breakers are unique)
  and `len`, so it is modelled as a list with `popMin`.
* The A* main loop is modelled with an explicit fuel parameter
  (`solveLoop`); all safety statements are proved for every fuel value,
  and concrete runs are given enough fuel to terminate normally.
* `calculate_heuristic` returns `float('inf')` only for target types
  outside {point, line, circle}; such targets make `solve` raise a
  `KeyError` before the heuristic is ever consulted, so target types are
  modelled as the three-constructor `ObjType` and the heuristic is
  `ℕ`-valued (the `new_h == float('inf')` test in `solve` is then dead
  code and is omitted).
-/

namespace GeoSolver

/-- EPSILON from `app/geometry/kernels.py` (also the literal `1e-9` used by
`normalize_line` in `app/geometry/primitives.py`). -/
def EPSILON : ℚ := 1 / 1000000000

/-- Rounding to `HASH_PRECISION = 10` decimal places, the idealization of
Python `round(x, 10)` used throughout `primitives.py`. -/
def roundP (x : ℚ) : ℚ := (round (x * 10 ^ 10) : ℚ) / 10 ^ 10

/-- Points are coordinate pairs, `np.array([x, y])` in the source. -/
structure PointF where
  x : ℚ
  y : ℚ
deriving DecidableEq

/-- Lines are coefficient triples `[A, B, C]` of `A·x + B·y + C = 0`. -/
structure LineF where
  A : ℚ
  B : ℚ
  C : ℚ
deriving DecidableEq

/-- Circles are `[cx, cy, r_squared]` triples. -/
structure CircleF where
  cx : ℚ
  cy : ℚ
  rsq : ℚ
deriving DecidableEq

/-- Embedding of `normalize_point` from `primitives.py`. -/
def normalize_point (p : PointF) : PointF :=
  ⟨roundP p.x, roundP p.y⟩

/-- The sign-convention block of `normalize_line` (the `if abs(A) > 1e-9
and A < 0 ... elif ...` reassignment): the first sufficiently nonzero
coefficient among `A, B` is made positive. -/
def signFix (a b c : ℚ) : ℚ × ℚ × ℚ :=
  if EPSILON < |a| ∧ a < 0 then (-a, -b, -c)
  else if |a| < EPSILON ∧ EPSILON < |b| ∧ b < 0 then (-a, -b, -c)
  else (a, b, c)

/-- Embedding of `normalize_line` from `primitives.py`; `sq` stands for
`np.sqrt`. -/
def normalize_line (sq : ℚ → ℚ) (l : LineF) : LineF :=
  let norm := sq (l.A ^ 2 + l.B ^ 2)
  if norm < EPSILON then ⟨0, 0, 0⟩
  else
    let f := signFix (l.A / norm) (l.B / norm) (l.C / norm)
    ⟨roundP f.1, roundP f.2.1, roundP f.2.2⟩

/-- Embedding of `normalize_circle` from `primitives.py`. -/
def normalize_circle (c : CircleF) : CircleF :=
  ⟨roundP c.cx, roundP c.cy, roundP c.rsq⟩

/-- Embedding of `construct_line_from_points` from `kernels.py`. -/
def construct_line_from_points (p1 p2 : PointF) : LineF :=
  ⟨p1.y - p2.y, p2.x - p1.x, p1.x * p2.y - p2.x * p1.y⟩

/-- Embedding of `construct_circle_from_points` from `kernels.py`. -/
def construct_circle_from_points (center pc : PointF) : CircleF :=
  ⟨center.x, center.y, (pc.x - center.x) ^ 2 + (pc.y - center.y) ^ 2⟩

/-- Embedding of `intersect_line_line` from `kernels.py`.  The fixed 2×2
result buffer together with its count is modelled as the list of the
`count` valid rows (the remaining rows are NaN and never read). -/
def intersect_line_line (l1 l2 : LineF) : List PointF :=
  let det := l1.A * l2.B - l2.A * l1.B
  if |det| < EPSILON then []
  else
    [⟨(l2.B * -l1.C - l1.B * -l2.C) / det, (l1.A * -l2.C - l2.A * -l1.C) / det⟩]

/-- Embedding of `intersect_line_circle` from `kernels.py`. -/
def intersect_line_circle (sq : ℚ → ℚ) (l : LineF) (c : CircleF) : List PointF :=
  let det_line := l.A * l.A + l.B * l.B
  if det_line < EPSILON then []
  else
    let x_closest := (l.B * l.B * c.cx - l.A * l.B * c.cy - l.A * l.C) / det_line
    let y_closest := (-(l.A * l.B) * c.cx + l.A * l.A * c.cy - l.B * l.C) / det_line
    let dist_sq := (x_closest - c.cx) ^ 2 + (y_closest - c.cy) ^ 2
    if c.rsq + EPSILON < dist_sq then []
    else if |dist_sq - c.rsq| < EPSILON then [⟨x_closest, y_closest⟩]
    else
      let half_chord := sq (c.rsq - dist_sq)
      let line_dir_norm := sq det_line
      [⟨x_closest + half_chord * -l.B / line_dir_norm,
        y_closest + half_chord * l.A / line_dir_norm⟩,
       ⟨x_closest - half_chord * -l.B / line_dir_norm,
        y_closest - half_chord * l.A / line_dir_norm⟩]

/-- Embedding of `intersect_circle_circle` from `kernels.py`. -/
def intersect_circle_circle (sq : ℚ → ℚ) (c1 c2 : CircleF) : List PointF :=
  let r1 := sq c1.rsq
  let r2 := sq c2.rsq
  let d_sq := (c1.cx - c2.cx) ^ 2 + (c1.cy - c2.cy) ^ 2
  if d_sq < EPSILON then []
  else
    let d := sq d_sq
    if r1 + r2 + EPSILON < d ∨ d < |r1 - r2| - EPSILON then []
    else
      intersect_line_circle sq
        ⟨2 * (c2.cx - c1.cx), 2 * (c2.cy - c1.cy),
         (c1.cx ^ 2 - c2.cx ^ 2) + (c1.cy ^ 2 - c2.cy ^ 2) - (c1.rsq - c2.rsq)⟩
        c1

/-! Figure ids.  Python ids are strings such as `"p7"`; `mkId` embeds the
f-string `f"{obj_type[0]}{obj_id_num}"` (decimal, no leading zeros) and
`parse_ord` embeds `int(k[1:]) if k[1:].isdigit() else None`. -/

/-- Decimal digit character, `str` of a single digit. -/
def digC (n : ℕ) : Char := Char.ofNat (48 + n)

/-- Decimal digits of `n`, most significant first, via an explicit fuel so
that the definition reduces in the kernel.  `natToDigits` below always
supplies enough fuel. -/
def natToDigitsAux : ℕ → ℕ → List Char
  | 0, _ => []
  | fuel + 1, n => if n < 10 then [digC n] else natToDigitsAux fuel (n / 10) ++ [digC (n % 10)]

/-- Decimal representation of `n` as a character list (`str(n)`). -/
def natToDigits (n : ℕ) : List Char := natToDigitsAux (n + 1) n

/-- Value of a decimal digit character. -/
def digVal (c : Char) : ℕ := c.toNat - 48

/-- Value of a digit string, most significant first. -/
def digitsVal (l : List Char) : ℕ := l.foldl (fun a c => a * 10 + digVal c) 0

/-- The three figure types. -/
inductive ObjType where
  | point
  | line
  | circle
deriving DecidableEq

/-- First letter of the type name, `obj_type[0]`. -/
def typeChar : ObjType → Char
  | .point => 'p'
  | .line => 'l'
  | .circle => 'c'

/-- Embedding of the id f-string `f"{obj_type[0]}{obj_id_num}"`. -/
def mkId (t : ObjType) (n : ℕ) : String := ⟨typeChar t :: natToDigits n⟩

/-- Embedding of `int(k[1:])` guarded by `k[1:].isdigit()`. -/
def parse_ord (s : String) : Option ℕ :=
  match s.data with
  | [] => none
  | _ :: t => if t ≠ [] ∧ t.all Char.isDigit then some (digitsVal t) else none

/-- Association-list lookup, `d[k]` read access on a Python dict. -/
def lookupA {β : Type} (k : String) : List (String × β) → Option β
  | [] => none
  | (k0, v) :: t => if k0 = k then some v else lookupA k t

/-- Association-list store, `d[k] = v` on a Python dict: replaces the value
in place if the key is present, appends otherwise. -/
def assocSet {β : Type} (l : List (String × β)) (k : String) (v : β) : List (String × β) :=
  match l with
  | [] => [(k, v)]
  | (k0, v0) :: t => if k0 = k then (k0, v) :: t else (k0, v0) :: assocSet t k v

/-- The three type-partitioned sub-mappings of a state
(`current_objects` in the source). -/
structure Objects where
  points : List (String × PointF)
  lines : List (String × LineF)
  circles : List (String × CircleF)
deriving DecidableEq

/-- The three next-id counters. -/
structure NextIds where
  point : ℕ
  line : ℕ
  circle : ℕ
deriving DecidableEq

/-- The `State` namedtuple of `search.py`. -/
structure State where
  objects : Objects
  next_ids : NextIds
deriving DecidableEq

/-! State hashing (`get_state_hash` in `primitives.py`): per type, the
sorted list of canonical forms.  Python sorts tuples lexicographically. -/

/-- Lexicographic comparison of canonical point tuples. -/
def pointLe (p q : PointF) : Bool :=
  decide (p.x < q.x ∨ (p.x = q.x ∧ p.y ≤ q.y))

/-- Lexicographic comparison of canonical line tuples. -/
def lineLe (p q : LineF) : Bool :=
  decide (p.A < q.A ∨ (p.A = q.A ∧ (p.B < q.B ∨ (p.B = q.B ∧ p.C ≤ q.C))))

/-- Lexicographic comparison of canonical circle tuples. -/
def circleLe (p q : CircleF) : Bool :=
  decide (p.cx < q.cx ∨ (p.cx = q.cx ∧ (p.cy < q.cy ∨ (p.cy = q.cy ∧ p.rsq ≤ q.rsq))))

/-- Sorted insertion used by `sortB`. -/
def insertB {α : Type} (le : α → α → Bool) (x : α) : List α → List α
  | [] => [x]
  | y :: t => if le x y then x :: y :: t else y :: insertB le x t

/-- Insertion sort, modelling Python `sorted` (any correct sort produces
the same list of canonical tuples). -/
def sortB {α : Type} (le : α → α → Bool) (l : List α) : List α :=
  l.foldr (insertB le) []

/-- State fingerprints: the three sorted canonical sequences.  The Python
version tags each component with the type name; the tags are constant and
the triple is positional, so they are omitted. -/
def get_state_hash (sq : ℚ → ℚ) (o : Objects) : List PointF × List LineF × List CircleF :=
  (sortB pointLe (o.points.map fun kv => normalize_point kv.2),
   sortB lineLe (o.lines.map fun kv => normalize_line sq kv.2),
   sortB circleLe (o.circles.map fun kv => normalize_circle kv.2))

/-! Successor generation (`_add_object` and `generate_successors` in
`search.py`).  `_add_object` is monomorphized per figure type. -/

/-- The duplicate test of `_add_object` for points: some existing point
has the same canonical form. -/
def containsCanonPt (pts : List (String × PointF)) (d : PointF) : Bool :=
  pts.any fun kv => normalize_point kv.2 = normalize_point d

/-- The duplicate test of `_add_object` for lines. -/
def containsCanonLn (sq : ℚ → ℚ) (lns : List (String × LineF)) (d : LineF) : Bool :=
  lns.any fun kv => normalize_line sq kv.2 = normalize_line sq d

/-- The duplicate test of `_add_object` for circles. -/
def containsCanonCr (crs : List (String × CircleF)) (d : CircleF) : Bool :=
  crs.any fun kv => normalize_circle kv.2 = normalize_circle d

/-- Embedding of `_add_object` for points: returns the (possibly extended)
objects and the new id when a figure was added (`is_new`). -/
def add_point (o : Objects) (idNum : ℕ) (d : PointF) : Objects × Option String :=
  if containsCanonPt o.points d then (o, none)
  else
    let nid := mkId .point idNum
    ({ o with points := assocSet o.points nid d }, some nid)

/-- Embedding of `_add_object` for lines. -/
def add_line (sq : ℚ → ℚ) (o : Objects) (idNum : ℕ) (d : LineF) : Objects × Option String :=
  if containsCanonLn sq o.lines d then (o, none)
  else
    let nid := mkId .line idNum
    ({ o with lines := assocSet o.lines nid d }, some nid)

/-- Embedding of `_add_object` for circles. -/
def add_circle (o : Objects) (idNum : ℕ) (d : CircleF) : Objects × Option String :=
  if containsCanonCr o.circles d then (o, none)
  else
    let nid := mkId .circle idNum
    ({ o with circles := assocSet o.circles nid d }, some nid)

/-- Operation names of a construction step. -/
inductive OpKind where
  | lineOp
  | circleOp
  | intersectionOp
deriving DecidableEq

/-- A construction step record. -/
structure Step where
  op : OpKind
  inputs : List String
  outType : ObjType
  outId : String
deriving DecidableEq

/-- An intersection configuration: the `("ll" | "lc" | "cc", ids)` pairs of
`generate_successors`. -/
inductive Config where
  | ll (a b : String)
  | lc (a b : String)
  | cc (a b : String)
deriving DecidableEq

/-- Input ids recorded in the step for a configuration. -/
def cfgInputs : Config → List String
  | .ll a b => [a, b]
  | .lc a b => [a, b]
  | .cc a b => [a, b]

/-- Keys of a sub-mapping, `d.keys()` in insertion order. -/
def keysOf {β : Type} (l : List (String × β)) : List String := l.map Prod.fst

/-- Unordered pairs in `itertools.combinations(l, 2)` order. -/
def combos2 {α : Type} (l : List α) : List (α × α) :=
  l.enum.flatMap fun ix =>
    l.enum.filterMap fun jy => if ix.1 < jy.1 then some (ix.2, jy.2) else none

/-- Ordered pairs of distinct positions, `itertools.permutations(l, 2)` order. -/
def perm2 {α : Type} (l : List α) : List (α × α) :=
  l.enum.flatMap fun ix =>
    l.enum.filterMap fun jy => if ix.1 ≠ jy.1 then some (ix.2, jy.2) else none

/-- Cartesian product in `itertools.product` order. -/
def prodL {α β : Type} (l1 : List α) (l2 : List β) : List (α × β) :=
  l1.flatMap fun x => l2.map fun y => (x, y)

/-- The `intersection_configs` list built at the top of
`generate_successors`. -/
def intersection_configs (o : Objects) : List Config :=
  (if 2 ≤ o.lines.length then
    (combos2 (keysOf o.lines)).map fun ab => Config.ll ab.1 ab.2
   else []) ++
  (if o.lines ≠ [] ∧ o.circles ≠ [] then
    (prodL (keysOf o.lines) (keysOf o.circles)).map fun ab => Config.lc ab.1 ab.2
   else []) ++
  (if 2 ≤ o.circles.length then
    (combos2 (keysOf o.circles)).map fun ab => Config.cc ab.1 ab.2
   else [])

/-- Kernel dispatch for one configuration (the `if op_type == ...` ladder).
The Python code indexes dicts whose keys come from the same dicts, so the
lookups always succeed; a failed lookup yields the empty result. -/
def config_kernel (sq : ℚ → ℚ) (o : Objects) : Config → List PointF
  | .ll a b =>
    match lookupA a o.lines, lookupA b o.lines with
    | some l1, some l2 => intersect_line_line l1 l2
    | _, _ => []
  | .lc a b =>
    match lookupA a o.lines, lookupA b o.circles with
    | some l, some c => intersect_line_circle sq l c
    | _, _ => []
  | .cc a b =>
    match lookupA a o.circles, lookupA b o.circles with
    | some c1, some c2 => intersect_circle_circle sq c1 c2
    | _, _ => []

/-- The `for i in range(count)` loop over kernel results: sequentially
`_add_object` each point with id ordinal `next_ids['point'] +
points_generated_in_this_call`, collecting `new_point_ids` and the updated
generation counter. -/
def add_points_loop (nPt : ℕ) : List PointF → Objects → ℕ → Objects × List String × ℕ
  | [], o, gen => (o, [], gen)
  | p :: rest, o, gen =>
    match add_point o (nPt + gen) p with
    | (o2, some nid) =>
      let r := add_points_loop nPt rest o2 (gen + 1)
      (r.1, nid :: r.2.1, r.2.2)
    | (o2, none) => add_points_loop nPt rest o2 gen

/-- The body of the configuration loop in `generate_successors`: the kernel
call, the add loop, and (when a new point appeared) the recorded step whose
output id is the first newly produced id. -/
def processConfig (sq : ℚ → ℚ) (o : Objects) (nPt : ℕ) (cfg : Config) (gen : ℕ) :
    Option (Objects × Step) × ℕ :=
  match config_kernel sq o cfg with
  | [] => (none, gen)
  | pts =>
    let r := add_points_loop nPt pts o gen
    match r.2.1 with
    | [] => (none, r.2.2)
    | nid :: _ =>
      (some (r.1, ⟨.intersectionOp, cfgInputs cfg, .point, nid⟩), r.2.2)

/-- The configuration loop itself, threading
`points_generated_in_this_call` across configurations exactly as the
source does. -/
def interLoop (sq : ℚ → ℚ) (o : Objects) (nPt : ℕ) : List Config → ℕ → List (Objects × Step)
  | [], _ => []
  | cfg :: rest, gen =>
    match processConfig sq o nPt cfg gen with
    | (some s, g2) => s :: interLoop sq o nPt rest g2
    | (none, g2) => interLoop sq o nPt rest g2

/-- Section 2 of `generate_successors`: lines through every unordered pair
of points. -/
def line_succs (sq : ℚ → ℚ) (o : Objects) (nLine : ℕ) : List (Objects × Step) :=
  if 2 ≤ o.points.length then
    (combos2 (keysOf o.points)).filterMap fun ab =>
      match lookupA ab.1 o.points, lookupA ab.2 o.points with
      | some p1, some p2 =>
        match add_line sq o nLine (construct_line_from_points p1 p2) with
        | (o2, some nid) => some (o2, ⟨.lineOp, [ab.1, ab.2], .line, nid⟩)
        | (_, none) => none
      | _, _ => none
  else []

/-- Section 3 of `generate_successors`: circles from every ordered pair of
distinct points (center, point on circumference). -/
def circle_succs (o : Objects) (nCircle : ℕ) : List (Objects × Step) :=
  if 2 ≤ o.points.length then
    (perm2 (keysOf o.points)).filterMap fun ab =>
      match lookupA ab.1 o.points, lookupA ab.2 o.points with
      | some pc, some pon =>
        match add_circle o nCircle (construct_circle_from_points pc pon) with
        | (o2, some nid) => some (o2, ⟨.circleOp, [ab.1, ab.2], .circle, nid⟩)
        | (_, none) => none
      | _, _ => none
  else []

/-- Embedding of `generate_successors` from `search.py`. -/
def generate_successors (sq : ℚ → ℚ) (s : State) : List (Objects × Step) :=
  interLoop sq s.objects s.next_ids.point (intersection_configs s.objects) 0 ++
  line_succs sq s.objects s.next_ids.line ++
  circle_succs s.objects s.next_ids.circle

/-- Embedding of `calculate_heuristic` from `heuristic.py` (ℕ-valued; see
the header for the dead `float('inf')` branch). -/
def calculate_heuristic (o : Objects) (t : ObjType) : ℕ :=
  let num_points := o.points.length
  let num_lines := o.lines.length
  let num_circles := o.circles.length
  match t with
  | .point =>
    if 2 ≤ num_lines ∨ 2 ≤ num_circles ∨ (1 ≤ num_lines ∧ 1 ≤ num_circles) then 1
    else if 2 ≤ num_points then
      if 4 ≤ num_points then 3
      else if 3 ≤ num_points then 3
      else 3
    else 5
  | .line => if 2 ≤ num_points then 1 else 2
  | .circle => if 2 ≤ num_points then 1 else 2

/-! The `solve` entry point of `search.py`. -/

/-- The `target_definition` argument: a type tag plus the literal data. -/
inductive TargetDef where
  | point (p : PointF)
  | line (l : LineF)
  | circle (c : CircleF)
deriving DecidableEq

/-- Type tag of a target. -/
def targetType : TargetDef → ObjType
  | .point _ => .point
  | .line _ => .line
  | .circle _ => .circle

/-- The `is_goal` test applied to the newly created figure of a successor:
compares canonical forms when the types agree. -/
def goalHit (sq : ℚ → ℚ) (tgt : TargetDef) (o : Objects) (t : ObjType) (id : String) : Bool :=
  match tgt, t with
  | .point pd, .point =>
    decide ((lookupA id o.points).map normalize_point = some (normalize_point pd))
  | .line ld, .line =>
    decide ((lookupA id o.lines).map (normalize_line sq) = some (normalize_line sq ld))
  | .circle cd, .circle =>
    decide ((lookupA id o.circles).map normalize_circle = some (normalize_circle cd))
  | _, _ => false

/-- Largest parsed ordinal of the keys of a sub-mapping,
`max([int(k[1:]) ... ] or [0])`. -/
def maxOrd {β : Type} (l : List (String × β)) : ℕ :=
  l.foldl (fun m kv => match parse_ord kv.1 with | some n => max m n | none => m) 0

/-- Counter seeding at the top of `solve`:
`next_id[type] = max(parsed ordinals, default 0) + 1`. -/
def seed_ids (o : Objects) : NextIds :=
  ⟨maxOrd o.points + 1, maxOrd o.lines + 1, maxOrd o.circles + 1⟩

/-- The `SearchNode` namedtuple. -/
structure SNode where
  priority : ℕ
  tie : ℕ
  g : ℕ
  state : State
  path : List Step
deriving DecidableEq

/-- Mutable state of the main loop: the open list, the visited set (a list
of pairwise-distinct fingerprints, so its length is the set's size), and
the next tie-breaker value. -/
structure LoopSt where
  openL : List SNode
  visited : List (List PointF × List LineF × List CircleF)
  tie : ℕ
deriving DecidableEq

/-- MAX_OPEN_LIST_SIZE from `search.py`. -/
def MAX_OPEN_LIST_SIZE : ℕ := 150000

/-- Strict heap order on search nodes: `(priority, tie_breaker)`
lexicographically.  Tie breakers are unique, so namedtuple comparison
never reaches the remaining fields. -/
def nodeLt (a b : SNode) : Bool :=
  decide (a.priority < b.priority ∨ (a.priority = b.priority ∧ a.tie < b.tie))

/-- Minimum node of the open list. -/
def findMin (l : List SNode) : Option SNode :=
  l.foldl (fun acc n =>
    match acc with
    | none => some n
    | some m => if nodeLt n m then some n else some m) none

/-- Removes the first occurrence of a node. -/
def removeFirst (n : SNode) : List SNode → List SNode
  | [] => []
  | x :: t => if x = n then t else x :: removeFirst n t

/-- Embedding of `heapq.heappop`: extract the minimum node. -/
def popMin (l : List SNode) : Option (SNode × List SNode) :=
  match findMin l with
  | none => none
  | some m => some (m, removeFirst m l)

/-- Per-type read access to the counters. -/
def getId (n : NextIds) : ObjType → ℕ
  | .point => n.point
  | .line => n.line
  | .circle => n.circle

/-- Per-type store to the counters. -/
def setId (n : NextIds) : ObjType → ℕ → NextIds
  | .point, v => { n with point := v }
  | .line, v => { n with line := v }
  | .circle, v => { n with circle := v }

/-- The counter update performed by `solve` on each pushed successor:
parse the ordinal of the step's output id and bump that type's counter
just past it when it is not smaller.  (`int(...)` cannot fail on the
generated ids; an unparsable id leaves the counters unchanged.) -/
def updateIds (cur : NextIds) (st : Step) : NextIds :=
  match parse_ord st.outId with
  | some m => if getId cur st.outType ≤ m then setId cur st.outType (m + 1) else cur
  | none => cur

/-- The inner `for new_objects_state, step_info in successors` loop of
`solve`: visited check, open-list size cap, visited insertion, goal test
(returning the extended path and `states_explored` on success), heuristic,
counter update and push. -/
def processSuccs (sq : ℚ → ℚ) (tgt : TargetDef) :
    List (Objects × Step) → State → ℕ → List Step → LoopSt →
    Sum (List Step × ℕ) LoopSt
  | [], _, _, _, ls => .inr ls
  | (no, st) :: rest, cur, g, path, ls =>
    let h := get_state_hash sq no
    if h ∈ ls.visited then processSuccs sq tgt rest cur g path ls
    else if MAX_OPEN_LIST_SIZE < ls.openL.length then processSuccs sq tgt rest cur g path ls
    else
      let visited2 := ls.visited ++ [h]
      let npath := path ++ [st]
      if goalHit sq tgt no st.outType st.outId then .inl (npath, visited2.length)
      else
        let nh := calculate_heuristic no (targetType tgt)
        let nids := updateIds cur.next_ids st
        let node : SNode := ⟨g + 1 + nh, ls.tie, g + 1, ⟨no, nids⟩, npath⟩
        processSuccs sq tgt rest cur g path ⟨ls.openL ++ [node], visited2, ls.tie + 1⟩

/-- The `while open_list` loop of `solve`, with explicit fuel (each fuel
unit is one iteration; safety properties below hold for every fuel). -/
def solveLoop (sq : ℚ → ℚ) (tgt : TargetDef) (maxSteps : ℕ) :
    ℕ → LoopSt → Option (List Step) × ℕ
  | 0, ls => (none, ls.visited.length)
  | fuel + 1, ls =>
    match popMin ls.openL with
    | none => (none, ls.visited.length)
    | some (node, rest) =>
      if maxSteps ≤ node.g then solveLoop sq tgt maxSteps fuel { ls with openL := rest }
      else
        match processSuccs sq tgt (generate_successors sq node.state) node.state node.g
            node.path { ls with openL := rest } with
        | .inl r => (some r.1, r.2)
        | .inr ls2 => solveLoop sq tgt maxSteps fuel ls2

/-- Initial loop state of `solve`: seeded counters, initial node with
`g = 0` and `h = h₀` under tie breaker 0, visited seeded with the initial
fingerprint, next tie breaker 1. -/
def initLoop (sq : ℚ → ℚ) (o : Objects) (tgt : TargetDef) : LoopSt :=
  let s0 : State := ⟨o, seed_ids o⟩
  let h0 := calculate_heuristic o (targetType tgt)
  ⟨[⟨0 + h0, 0, 0, s0, []⟩], [get_state_hash sq o], 1⟩

/-- Embedding of `solve` from `search.py`: returns the path (or `none`)
and the `states_explored` statistic. -/
def solve (sq : ℚ → ℚ) (fuel : ℕ) (o : Objects) (tgt : TargetDef) (maxSteps : ℕ) :
    Option (List Step) × ℕ :=
  solveLoop sq tgt maxSteps fuel (initLoop sq o tgt)

/-! The counter invariant of the data model (spec §3): each next-id
counter strictly exceeds every parsed ordinal of an id of its type present
in the state. -/

/-- One id respects a counter bound: its parsed ordinal, if any, is below
the bound. -/
def ordBelowB (k : String) (bound : ℕ) : Bool :=
  match parse_ord k with
  | some m => decide (m < bound)
  | none => true

/-- Boolean check of the counter invariant for a whole state. -/
def counterInvB (s : State) : Bool :=
  (s.objects.points.all fun kv => ordBelowB kv.1 s.next_ids.point) &&
  (s.objects.lines.all fun kv => ordBelowB kv.1 s.next_ids.line) &&
  (s.objects.circles.all fun kv => ordBelowB kv.1 s.next_ids.circle)

/-- Canonical presence of a target figure in the initial objects (used to
state the goal-only-fires-on-new-figures property). -/
def targetPresentB (sq : ℚ → ℚ) (o : Objects) : TargetDef → Bool
  | .point pd => o.points.any fun kv => normalize_point kv.2 = normalize_point pd
  | .line ld => o.lines.any fun kv => normalize_line sq kv.2 = normalize_line sq ld
  | .circle cd => o.circles.any fun kv => normalize_circle kv.2 = normalize_circle cd

/-! Concrete instances used for counterexamples, failing inputs and
witnesses.  Square-root oracles are lookup tables of exact square roots
(except `sqNI` whose second entry is a high-precision rational
approximation of an irrational square root; its accuracy is asserted in
the corresponding theorem). -/

/-- Exact square roots needed by the heuristic failing input. -/
def sqHX : ℚ → ℚ := fun q => if q = 1 then 1 else if q = 4 then 2 else 0

/-- The heuristic failing input: two points and one line; the target point
`(1, 0)` lies on the known line and on the line through the two points. -/
def objsHX : Objects :=
  ⟨[("p1", ⟨0, 0⟩), ("p2", ⟨2, 0⟩)], [("l1", ⟨1, 0, -1⟩)], []⟩

/-- Exact square roots needed by the two-circle runs: the circles
`(0,0,r²=25)` and `(6,0,r²=25)` intersect at `(3,4)` and `(3,-4)`. -/
def sqCC : ℚ → ℚ := fun q =>
  if q = 16 then 4 else if q = 25 then 5
  else if q = 36 then 6 else if q = 64 then 8
  else if q = 144 then 12 else 0

/-- Initial objects for the counter-invariant failing input: two circles
meeting in two new points. -/
def objsCC : Objects :=
  ⟨[], [], [("c1", ⟨0, 0, 25⟩), ("c2", ⟨6, 0, 25⟩)]⟩

/-- The same two circles with both intersection points already present
(the C4 counterexample state). -/
def objsCC2 : Objects :=
  ⟨[("p1", ⟨3, 4⟩), ("p2", ⟨3, -4⟩)], [], [("c1", ⟨0, 0, 25⟩), ("c2", ⟨6, 0, 25⟩)]⟩

/-- A state whose point counter is stale: it contains the id `p1` although
`next_ids.point = 1`, so the next generated point id collides with it. -/
def stStale : State :=
  ⟨⟨[("p1", ⟨5, 5⟩)], [("l1", ⟨1, 0, -1⟩), ("l2", ⟨0, 1, 0⟩)], []⟩, ⟨1, 3, 1⟩⟩

/-- The line whose canonical form is not a fixed point of
`normalize_line`: its normalized coefficients `(16/65, 63/65, 100/3)`
round with nonzero error, so renormalizing the rounded triple moves the
third coefficient. -/
def lineNI : LineF := ⟨16, 63, 6500 / 3⟩

/-- Exact value of `A² + B²` for the once-normalized `lineNI`. -/
def q1NI : ℚ := 24999999999076923077 / 25000000000000000000

/-- Rational approximation of `√q1NI` accurate to better than `10⁻²⁴`
(asserted in the counterexample theorem). -/
def s1NI : ℚ := 1999999999963076923079659 / 2000000000000000000000000

/-- Square-root oracle for the non-idempotence counterexample:
`√4225 = 65` exactly, and a faithful approximation at `q1NI`. -/
def sqNI : ℚ → ℚ := fun q => if q = 4225 then 65 else if q = q1NI then s1NI else 0

/-- Exact square roots for the idempotence and order-independence
witnesses (lines with `A² + B² ∈ {0, 1, 25}`). -/
def sqW : ℚ → ℚ := fun q => if q = 25 then 5 else if q = 1 then 1 else 0

/-- Single-point objects for the goal-test witness. -/
def objsP1 : Objects := ⟨[("p1", ⟨3, 4⟩)], [], []⟩

/-- Projection used to observe the open list produced by one iteration of
the main loop (`Sum.inl` is a goal return and has no open list). -/
def openOf : Sum (List Step × ℕ) LoopSt → List SNode
  | .inl _ => []
  | .inr ls => ls.openL

/-- The `x_closest` intermediate of `intersect_line_circle`: first
coordinate of the foot of the perpendicular from the circle's center onto
the line. -/
def foot_x (l : LineF) (c : CircleF) : ℚ :=
  (l.B * l.B * c.cx - l.A * l.B * c.cy - l.A * l.C) / (l.A * l.A + l.B * l.B)

/-- The `y_closest` intermediate of `intersect_line_circle`. -/
def foot_y (l : LineF) (c : CircleF) : ℚ :=
  (-(l.A * l.B) * c.cx + l.A * l.A * c.cy - l.B * l.C) / (l.A * l.A + l.B * l.B)

/-- The `dist_sq` intermediate of `intersect_line_circle`: squared
distance from the circle's center to the foot of the perpendicular. -/
def foot_dist_sq (l : LineF) (c : CircleF) : ℚ :=
  (foot_x l c - c.cx) ^ 2 + (foot_y l c - c.cy) ^ 2

/-! General lemmas.  The Batteries rational-arithmetic definitions are
unsealed so that closed-form evaluations can go through `decide`. -/

unseal Rat.mul Rat.add Rat.sub Rat.inv

/-- EPSILON is positive. -/
lemma eps_pos : (0 : ℚ) < EPSILON := by norm_num [EPSILON]

/-- Rounding at precision 10 is idempotent. -/
lemma roundP_roundP (x : ℚ) : roundP (roundP x) = roundP x := by
  unfold roundP
  rw [div_mul_cancel₀ _ (by norm_num : (10 : ℚ) ^ 10 ≠ 0), round_intCast]

/-- A value fixed by `roundP` scales to an integer. -/
lemma roundP_fix_scaled {x : ℚ} (h : roundP x = x) :
    x * 10 ^ 10 = ((round (x * 10 ^ 10) : ℤ) : ℚ) := by
  unfold roundP at h
  field_simp at h
  exact h.symm

/-- Negation preserves being a fixed point of `roundP`. -/
lemma roundP_fix_neg {x : ℚ} (h : roundP x = x) : roundP (-x) = -x := by
  have hs := roundP_fix_scaled h
  have h2 : (-x) * 10 ^ 10 = ((-round (x * 10 ^ 10) : ℤ) : ℚ) := by
    push_cast
    rw [← hs]
    ring
  unfold roundP
  rw [h2, round_intCast]
  push_cast
  rw [← hs]
  ring

/-- The sign fix preserves the sum of squares of the first two
components. -/
lemma signFix_sq (a b c : ℚ) :
    (signFix a b c).1 ^ 2 + (signFix a b c).2.1 ^ 2 = a ^ 2 + b ^ 2 := by
  unfold signFix
  split_ifs <;> dsimp only <;> ring

/-- The sign fix is idempotent: a fixed triple is not flipped again. -/
lemma signFix_idem (a b c : ℚ) :
    signFix (signFix a b c).1 (signFix a b c).2.1 (signFix a b c).2.2 = signFix a b c := by
  by_cases h1 : EPSILON < |a| ∧ a < 0
  · have hin : signFix a b c = (-a, -b, -c) := by
      unfold signFix
      rw [if_pos h1]
    rw [hin]
    show signFix (-a) (-b) (-c) = (-a, -b, -c)
    have hc1 : ¬(EPSILON < |(-a)| ∧ -a < 0) := by
      rintro ⟨-, hneg⟩
      linarith [h1.2]
    have hc2 : ¬(|(-a)| < EPSILON ∧ EPSILON < |(-b)| ∧ -b < 0) := by
      rintro ⟨habs, -⟩
      rw [abs_neg] at habs
      exact absurd habs (not_lt.2 h1.1.le)
    unfold signFix
    rw [if_neg hc1, if_neg hc2]
  · by_cases h2 : |a| < EPSILON ∧ EPSILON < |b| ∧ b < 0
    · have hin : signFix a b c = (-a, -b, -c) := by
        unfold signFix
        rw [if_neg h1, if_pos h2]
      rw [hin]
      show signFix (-a) (-b) (-c) = (-a, -b, -c)
      have hc1 : ¬(EPSILON < |(-a)| ∧ -a < 0) := by
        rintro ⟨habs, -⟩
        rw [abs_neg] at habs
        linarith [h2.1]
      have hc2 : ¬(|(-a)| < EPSILON ∧ EPSILON < |(-b)| ∧ -b < 0) := by
        rintro ⟨-, -, hneg⟩
        linarith [h2.2.2]
      unfold signFix
      rw [if_neg hc1, if_neg hc2]
    · have hin : signFix a b c = (a, b, c) := by
        unfold signFix
        rw [if_neg h1, if_neg h2]
      rw [hin]
      show signFix a b c = (a, b, c)
      unfold signFix
      rw [if_neg h1, if_neg h2]

/-- Rounding-fixedness of the components survives the sign fix. -/
lemma signFix_roundP_fix {a b c : ℚ} (hA : roundP a = a) (hB : roundP b = b)
    (hC : roundP c = c) :
    roundP (signFix a b c).1 = (signFix a b c).1 ∧
    roundP (signFix a b c).2.1 = (signFix a b c).2.1 ∧
    roundP (signFix a b c).2.2 = (signFix a b c).2.2 := by
  unfold signFix
  split_ifs <;> dsimp only
  · exact ⟨roundP_fix_neg hA, roundP_fix_neg hB, roundP_fix_neg hC⟩
  · exact ⟨roundP_fix_neg hA, roundP_fix_neg hB, roundP_fix_neg hC⟩
  · exact ⟨hA, hB, hC⟩

/-- On a unit-norm pair whose first component does not sit exactly on the
sign threshold, negating all three inputs does not change the sign-fixed
triple. -/
lemma signFix_neg {a b : ℚ} (c : ℚ) (hunit : a ^ 2 + b ^ 2 = 1) (hne : |a| ≠ EPSILON) :
    signFix (-a) (-b) (-c) = signFix a b c := by
  unfold signFix
  rcases lt_trichotomy |a| EPSILON with ha | ha | ha
  · have hb2 : EPSILON ^ 2 < b ^ 2 := by
      have h1 : a ^ 2 < EPSILON ^ 2 := by
        rw [← sq_abs a]
        exact pow_lt_pow_left₀ ha (abs_nonneg a) (by norm_num)
      have h2 : 2 * EPSILON ^ 2 < 1 := by norm_num [EPSILON]
      linarith [h1, h2, hunit]
    have hb : EPSILON < |b| := by
      rw [← sq_abs b] at hb2
      exact lt_of_pow_lt_pow_left₀ 2 (abs_nonneg b) hb2
    have hb0 : b ≠ 0 := by
      intro h0
      rw [h0, abs_zero] at hb
      exact absurd hb (not_lt.2 eps_pos.le)
    have hna1 : ¬(EPSILON < |(-a)| ∧ -a < 0) := by
      rintro ⟨habs, -⟩
      rw [abs_neg] at habs
      linarith
    have ha1 : ¬(EPSILON < |a| ∧ a < 0) := by
      rintro ⟨habs, -⟩
      linarith
    rcases lt_or_gt_of_ne hb0 with hbneg | hbpos
    · have hc2 : ¬(|(-a)| < EPSILON ∧ EPSILON < |(-b)| ∧ -b < 0) := by
        rintro ⟨-, -, hneg⟩
        linarith
      have hc2' : |a| < EPSILON ∧ EPSILON < |b| ∧ b < 0 := ⟨ha, hb, hbneg⟩
      rw [if_neg hna1, if_neg hc2, if_neg ha1, if_pos hc2']
    · have hc2 : |(-a)| < EPSILON ∧ EPSILON < |(-b)| ∧ -b < 0 := by
        rw [abs_neg, abs_neg]
        exact ⟨ha, hb, by linarith⟩
      have hc2' : ¬(|a| < EPSILON ∧ EPSILON < |b| ∧ b < 0) := by
        rintro ⟨-, -, hneg⟩
        linarith
      rw [if_neg hna1, if_pos hc2, if_neg ha1, if_neg hc2']
      simp
  · exact absurd ha hne
  · have ha0 : a ≠ 0 := by
      intro h0
      rw [h0, abs_zero] at ha
      exact absurd ha (not_lt.2 eps_pos.le)
    rcases lt_or_gt_of_ne ha0 with haneg | hapos
    · have hc1 : ¬(EPSILON < |(-a)| ∧ -a < 0) := by
        rintro ⟨-, hneg⟩
        linarith
      have hc2 : ¬(|(-a)| < EPSILON ∧ EPSILON < |(-b)| ∧ -b < 0) := by
        rintro ⟨habs, -⟩
        rw [abs_neg] at habs
        linarith
      have hc1' : EPSILON < |a| ∧ a < 0 := ⟨ha, haneg⟩
      rw [if_neg hc1, if_neg hc2, if_pos hc1']
    · have hc1 : EPSILON < |(-a)| ∧ -a < 0 := by
        rw [abs_neg]
        exact ⟨ha, by linarith⟩
      have hc1' : ¬(EPSILON < |a| ∧ a < 0) := by
        rintro ⟨-, hneg⟩
        linarith
      have hc2' : ¬(|a| < EPSILON ∧ EPSILON < |b| ∧ b < 0) := by
        rintro ⟨habs, -⟩
        linarith
      rw [if_pos hc1, if_neg hc1', if_neg hc2']
      simp

/-- No rational has square `1 − ε²` (with `ε = 10⁻⁹`): scaled by `10⁹` it
would be a rational square root of the integer `10¹⁸ − 1`, which lies
strictly between consecutive integer squares. -/
lemma no_rat_sq_one_sub_eps_sq (b : ℚ) : b ^ 2 ≠ 1 - EPSILON ^ 2 := by
  intro h
  have h2 : ((10 : ℚ) ^ 9 * b) ^ 2 = ((999999999999999999 : ℤ) : ℚ) := by
    rw [mul_pow, h]
    norm_num [EPSILON]
  set r : ℚ := (10 : ℚ) ^ 9 * b with hr
  have hden : r.den = 1 := by
    have hd := congrArg Rat.den h2
    rw [Rat.den_pow, Rat.den_intCast] at hd
    have hmul : r.den * r.den = 1 := by
      rw [← pow_two]
      exact hd
    by_contra hne2
    have h0 : r.den ≠ 0 := r.den_nz
    have h3 : 2 ≤ r.den := by omega
    have h4 : 2 * 2 ≤ r.den * r.den := Nat.mul_le_mul h3 h3
    omega
  have hnum : (r.num : ℚ) = r := by
    conv_rhs => rw [← Rat.num_div_den r]
    rw [hden]
    simp
  have hm : r.num ^ 2 = 999999999999999999 := by
    have : ((r.num : ℚ)) ^ 2 = ((999999999999999999 : ℤ) : ℚ) := by
      rw [hnum]
      exact h2
    exact_mod_cast this
  have hle : r.num ≤ 999999999 := by
    by_contra hcon
    push_neg at hcon
    have h10 : (1000000000 : ℤ) ≤ r.num := by omega
    nlinarith [hm, mul_le_mul h10 h10 (by norm_num) (by omega : (0 : ℤ) ≤ r.num)]
  have hge : (-999999999 : ℤ) ≤ r.num := by
    by_contra hcon
    push_neg at hcon
    have h10 : r.num ≤ -1000000000 := by omega
    nlinarith [hm, mul_le_mul (neg_le_neg h10) (neg_le_neg h10) (by norm_num)
      (by omega : (0 : ℤ) ≤ -r.num)]
  have hprod : (999999999 - r.num) * (999999999 + r.num) ≥ 0 :=
    mul_nonneg (by omega) (by omega)
  nlinarith [hm, hprod]

/-! Lemmas about association lists and generated ids. -/

/-- Storing under a key absent from the list appends. -/
lemma assocSet_fresh {β : Type} {l : List (String × β)} {k : String} (v : β)
    (h : lookupA k l = none) : assocSet l k v = l ++ [(k, v)] := by
  induction l with
  | nil => rfl
  | cons kv rest ih =>
    simp only [lookupA] at h
    by_cases he : kv.1 = k
    · rw [if_pos he] at h
      cases h
    · rw [if_neg he] at h
      show assocSet (kv :: rest) k v = kv :: (rest ++ [(k, v)])
      unfold assocSet
      rw [if_neg he, ih h]

/-- A successful lookup is unaffected by appending entries. -/
lemma lookupA_append_left {β : Type} {l : List (String × β)} {k : String} {v : β}
    (m : List (String × β)) (h : lookupA k l = some v) : lookupA k (l ++ m) = some v := by
  induction l with
  | nil => cases h
  | cons kv rest ih =>
    simp only [lookupA] at h ⊢
    by_cases he : kv.1 = k
    · rwa [if_pos he] at h ⊢
    · rw [if_neg he] at h ⊢
      exact ih h

/-- Looking up a key absent from the prefix searches the suffix. -/
lemma lookupA_append_right {β : Type} {l : List (String × β)} {k : String}
    (m : List (String × β)) (h : lookupA k l = none) :
    lookupA k (l ++ m) = lookupA k m := by
  induction l with
  | nil => rfl
  | cons kv rest ih =>
    simp only [lookupA] at h ⊢
    by_cases he : kv.1 = k
    · rw [if_pos he] at h
      cases h
    · rw [if_neg he] at h ⊢
      exact ih h

/-- A decimal digit character evaluates back to its value. -/
lemma digVal_digC {n : ℕ} (h : n < 10) : digVal (digC n) = n := by
  interval_cases n <;> rfl

/-- A decimal digit character satisfies `Char.isDigit`. -/
lemma isDigit_digC {n : ℕ} (h : n < 10) : (digC n).isDigit = true := by
  interval_cases n <;> rfl

/-- Value of a digit string extended on the right. -/
lemma digitsVal_append (l : List Char) (c : Char) :
    digitsVal (l ++ [c]) = digitsVal l * 10 + digVal c := by
  unfold digitsVal
  rw [List.foldl_append]
  rfl

/-- The fueled digit expansion is correct, nonempty and all digits when
given enough fuel. -/
lemma natToDigitsAux_spec : ∀ fuel n, n < fuel →
    digitsVal (natToDigitsAux fuel n) = n ∧ natToDigitsAux fuel n ≠ [] ∧
      ∀ ch ∈ natToDigitsAux fuel n, ch.isDigit = true := by
  intro fuel
  induction fuel with
  | zero =>
    intro n h
    exact absurd h (Nat.not_lt_zero n)
  | succ f ih =>
    intro n hn
    by_cases h10 : n < 10
    · simp only [natToDigitsAux, if_pos h10]
      refine ⟨?_, by simp, ?_⟩
      · show digitsVal ([] ++ [digC n]) = n
        rw [digitsVal_append, digVal_digC h10]
        simp [digitsVal]
      · intro ch hch
        simp only [List.mem_singleton] at hch
        subst hch
        exact isDigit_digC h10
    · have hdiv : n / 10 < f := by
        have h1 : n / 10 < n := Nat.div_lt_self (by omega) (by omega)
        omega
      obtain ⟨ihv, ihne, ihd⟩ := ih (n / 10) hdiv
      simp only [natToDigitsAux, if_neg h10]
      refine ⟨?_, by simp, ?_⟩
      · rw [digitsVal_append, ihv, digVal_digC (Nat.mod_lt n (by omega))]
        omega
      · intro ch hch
        rcases List.mem_append.mp hch with h | h
        · exact ihd ch h
        · simp only [List.mem_singleton] at h
          subst h
          exact isDigit_digC (Nat.mod_lt n (by omega))

/-- Parsing a generated id recovers its ordinal. -/
lemma parse_mkId (t : ObjType) (n : ℕ) : parse_ord (mkId t n) = some n := by
  obtain ⟨hv, hne, hd⟩ := natToDigitsAux_spec (n + 1) n (Nat.lt_succ_self n)
  show parse_ord ⟨typeChar t :: natToDigits n⟩ = some n
  unfold parse_ord
  simp only
  have hcond : natToDigits n ≠ [] ∧ ((natToDigits n).all Char.isDigit = true) :=
    ⟨hne, List.all_eq_true.mpr fun c hc => hd c hc⟩
  rw [if_pos hcond]
  exact congrArg some hv

/-- Generated ids of the same type are injective in the ordinal. -/
lemma mkId_inj {t : ObjType} {n m : ℕ} (h : mkId t n = mkId t m) : n = m := by
  have h1 := parse_mkId t n
  have h2 := parse_mkId t m
  rw [h, h2] at h1
  exact ((Option.some.injEq m n).mp h1).symm

/-- Counters dominating every used ordinal make all generated ids with
larger ordinal fresh. -/
lemma lookupA_mkId_none {β : Type} {bound : ℕ} (t : ObjType) :
    ∀ (l : List (String × β)), (l.all fun kv => ordBelowB kv.1 bound) = true →
    ∀ n, bound ≤ n → lookupA (mkId t n) l = none := by
  intro l
  induction l with
  | nil =>
    intro _ n _
    rfl
  | cons kv rest ih =>
    intro h n hn
    simp only [List.all_cons, Bool.and_eq_true] at h
    simp only [lookupA]
    rw [if_neg, ih h.2 n hn]
    intro heq
    have hb := h.1
    rw [heq, ordBelowB, parse_mkId] at hb
    simp only [decide_eq_true_eq] at hb
    omega

/-! Lemmas about the successor generator. -/

/-- The line-line kernel yields at most one point. -/
lemma intersect_line_line_shape (l1 l2 : LineF) :
    intersect_line_line l1 l2 = [] ∨ ∃ p, intersect_line_line l1 l2 = [p] := by
  unfold intersect_line_line
  dsimp only
  split_ifs
  · exact Or.inl rfl
  · exact Or.inr ⟨_, rfl⟩

/-- The line-circle kernel yields at most two points. -/
lemma intersect_line_circle_shape (sq : ℚ → ℚ) (l : LineF) (c : CircleF) :
    intersect_line_circle sq l c = [] ∨ (∃ p, intersect_line_circle sq l c = [p]) ∨
      ∃ p q, intersect_line_circle sq l c = [p, q] := by
  unfold intersect_line_circle
  dsimp only
  split_ifs
  · exact Or.inl rfl
  · exact Or.inl rfl
  · exact Or.inr (Or.inl ⟨_, rfl⟩)
  · exact Or.inr (Or.inr ⟨_, _, rfl⟩)

/-- The circle-circle kernel yields at most two points. -/
lemma intersect_circle_circle_shape (sq : ℚ → ℚ) (c1 c2 : CircleF) :
    intersect_circle_circle sq c1 c2 = [] ∨ (∃ p, intersect_circle_circle sq c1 c2 = [p]) ∨
      ∃ p q, intersect_circle_circle sq c1 c2 = [p, q] := by
  unfold intersect_circle_circle
  dsimp only
  split_ifs
  · exact Or.inl rfl
  · exact Or.inl rfl
  · exact intersect_line_circle_shape sq _ _

/-- Any configuration's kernel result has at most two points. -/
lemma config_kernel_shape (sq : ℚ → ℚ) (o : Objects) (cfg : Config) :
    config_kernel sq o cfg = [] ∨ (∃ p, config_kernel sq o cfg = [p]) ∨
      ∃ p q, config_kernel sq o cfg = [p, q] := by
  cases cfg with
  | ll a b =>
    cases h1 : lookupA a o.lines with
    | none => exact Or.inl (by simp [config_kernel, h1])
    | some l1 =>
      cases h2 : lookupA b o.lines with
      | none => exact Or.inl (by simp [config_kernel, h1, h2])
      | some l2 =>
        have heq : config_kernel sq o (Config.ll a b) = intersect_line_line l1 l2 := by
          simp [config_kernel, h1, h2]
        rw [heq]
        rcases intersect_line_line_shape l1 l2 with h | ⟨p, h⟩
        · exact Or.inl h
        · exact Or.inr (Or.inl ⟨p, h⟩)
  | lc a b =>
    cases h1 : lookupA a o.lines with
    | none => exact Or.inl (by simp [config_kernel, h1])
    | some l =>
      cases h2 : lookupA b o.circles with
      | none => exact Or.inl (by simp [config_kernel, h1, h2])
      | some c =>
        have heq : config_kernel sq o (Config.lc a b) = intersect_line_circle sq l c := by
          simp [config_kernel, h1, h2]
        rw [heq]
        exact intersect_line_circle_shape sq l c
  | cc a b =>
    cases h1 : lookupA a o.circles with
    | none => exact Or.inl (by simp [config_kernel, h1])
    | some c1 =>
      cases h2 : lookupA b o.circles with
      | none => exact Or.inl (by simp [config_kernel, h1, h2])
      | some c2 =>
        have heq : config_kernel sq o (Config.cc a b) = intersect_circle_circle sq c1 c2 := by
          simp [config_kernel, h1, h2]
        rw [heq]
        exact intersect_circle_circle_shape sq c1 c2

/-- An empty kernel result yields no successor. -/
lemma processConfig_nil {sq : ℚ → ℚ} {o : Objects} {nPt : ℕ} {cfg : Config}
    (hker : config_kernel sq o cfg = []) (g : ℕ) :
    processConfig sq o nPt cfg g = (none, g) := by
  simp [processConfig, hker]

/-- One kernel point, canonically present: no successor. -/
lemma processConfig_single_dup {sq : ℚ → ℚ} {o : Objects} {nPt : ℕ} {cfg : Config} {p : PointF}
    (hker : config_kernel sq o cfg = [p]) (hdup : containsCanonPt o.points p = true) (g : ℕ) :
    processConfig sq o nPt cfg g = (none, g) := by
  simp [processConfig, hker, add_points_loop, add_point, hdup]

/-- One kernel point, canonically new: one successor storing it. -/
lemma processConfig_single_new {sq : ℚ → ℚ} {o : Objects} {nPt : ℕ} {cfg : Config} {p : PointF}
    (hker : config_kernel sq o cfg = [p]) (hnew : containsCanonPt o.points p = false) (g : ℕ) :
    processConfig sq o nPt cfg g =
      (some ({ o with points := assocSet o.points (mkId .point (nPt + g)) p },
        ⟨.intersectionOp, cfgInputs cfg, .point, mkId .point (nPt + g)⟩), g + 1) := by
  simp [processConfig, hker, add_points_loop, add_point, hnew]

/-- Two kernel points, both canonically present: no successor. -/
lemma processConfig_pair_dd {sq : ℚ → ℚ} {o : Objects} {nPt : ℕ} {cfg : Config} {p1 p2 : PointF}
    (hker : config_kernel sq o cfg = [p1, p2]) (h1 : containsCanonPt o.points p1 = true)
    (h2 : containsCanonPt o.points p2 = true) (g : ℕ) :
    processConfig sq o nPt cfg g = (none, g) := by
  simp [processConfig, hker, add_points_loop, add_point, h1, h2]

/-- Two kernel points, first present, second new: one successor keeping
only the genuinely new point, recorded under the first produced id. -/
lemma processConfig_pair_dn {sq : ℚ → ℚ} {o : Objects} {nPt : ℕ} {cfg : Config} {p1 p2 : PointF}
    (hker : config_kernel sq o cfg = [p1, p2]) (h1 : containsCanonPt o.points p1 = true)
    (h2 : containsCanonPt o.points p2 = false) (g : ℕ) :
    processConfig sq o nPt cfg g =
      (some ({ o with points := assocSet o.points (mkId .point (nPt + g)) p2 },
        ⟨.intersectionOp, cfgInputs cfg, .point, mkId .point (nPt + g)⟩), g + 1) := by
  simp [processConfig, hker, add_points_loop, add_point, h1, h2]

/-- Two kernel points, first new, second a canonical duplicate within the
extended state: one successor with just the first point. -/
lemma processConfig_pair_nd {sq : ℚ → ℚ} {o : Objects} {nPt : ℕ} {cfg : Config} {p1 p2 : PointF}
    {g : ℕ} (hker : config_kernel sq o cfg = [p1, p2])
    (h1 : containsCanonPt o.points p1 = false)
    (h2 : containsCanonPt (assocSet o.points (mkId .point (nPt + g)) p1) p2 = true) :
    processConfig sq o nPt cfg g =
      (some ({ o with points := assocSet o.points (mkId .point (nPt + g)) p1 },
        ⟨.intersectionOp, cfgInputs cfg, .point, mkId .point (nPt + g)⟩), g + 1) := by
  simp [processConfig, hker, add_points_loop, add_point, h1, h2]

/-- Two kernel points, both canonically new: a single successor containing
both, its step output being the first produced id. -/
lemma processConfig_pair_nn {sq : ℚ → ℚ} {o : Objects} {nPt : ℕ} {cfg : Config} {p1 p2 : PointF}
    {g : ℕ} (hker : config_kernel sq o cfg = [p1, p2])
    (h1 : containsCanonPt o.points p1 = false)
    (h2 : containsCanonPt (assocSet o.points (mkId .point (nPt + g)) p1) p2 = false) :
    processConfig sq o nPt cfg g =
      (some ({ o with points := (assocSet (assocSet o.points (mkId .point (nPt + g)) p1)
          (mkId .point (nPt + g + 1)) p2) },
        ⟨.intersectionOp, cfgInputs cfg, .point, mkId .point (nPt + g)⟩), g + 2) := by
  simp [processConfig, hker, add_points_loop, add_point, h1, h2]
  rw [Nat.add_assoc]

/-- Step fields of any successor produced by a configuration. -/
lemma processConfig_some_fields {sq : ℚ → ℚ} {o : Objects} {nPt : ℕ} {c : Config} {g : ℕ}
    {os : Objects × Step} (h : (processConfig sq o nPt c g).1 = some os) :
    os.2.op = .intersectionOp ∧ os.2.inputs = cfgInputs c ∧ os.2.outType = .point := by
  rcases config_kernel_shape sq o c with hk | ⟨p, hk⟩ | ⟨p, q, hk⟩
  · rw [processConfig_nil hk] at h
    cases h
  · cases hb : containsCanonPt o.points p with
    | false =>
      rw [processConfig_single_new hk hb] at h
      cases h
      exact ⟨rfl, rfl, rfl⟩
    | true =>
      rw [processConfig_single_dup hk hb] at h
      cases h
  · cases hb1 : containsCanonPt o.points p with
    | false =>
      cases hb2 : containsCanonPt (assocSet o.points (mkId .point (nPt + g)) p) q with
      | false =>
        rw [processConfig_pair_nn hk hb1 hb2] at h
        cases h
        exact ⟨rfl, rfl, rfl⟩
      | true =>
        rw [processConfig_pair_nd hk hb1 hb2] at h
        cases h
        exact ⟨rfl, rfl, rfl⟩
    | true =>
      cases hb2 : containsCanonPt o.points q with
      | false =>
        rw [processConfig_pair_dn hk hb1 hb2] at h
        cases h
        exact ⟨rfl, rfl, rfl⟩
      | true =>
        rw [processConfig_pair_dd hk hb1 hb2] at h
        cases h

/-- Whether a configuration contributes a successor does not depend on the
generation counter. -/
lemma processConfig_isSome_indep {sq : ℚ → ℚ} {o : Objects} {nPt : ℕ} (c : Config) (g : ℕ) :
    ((processConfig sq o nPt c g).1).isSome = ((processConfig sq o nPt c 0).1).isSome := by
  rcases config_kernel_shape sq o c with hk | ⟨p, hk⟩ | ⟨p, q, hk⟩
  · rw [processConfig_nil hk, processConfig_nil hk]
  · cases hb : containsCanonPt o.points p with
    | false =>
      rw [processConfig_single_new hk hb, processConfig_single_new hk hb]
      rfl
    | true => rw [processConfig_single_dup hk hb, processConfig_single_dup hk hb]
  · cases hb1 : containsCanonPt o.points p with
    | false =>
      have hsome : ∀ g2 : ℕ, ((processConfig sq o nPt c g2).1).isSome = true := by
        intro g2
        cases hb2 : containsCanonPt (assocSet o.points (mkId .point (nPt + g2)) p) q with
        | false =>
          rw [processConfig_pair_nn hk hb1 hb2]
          rfl
        | true =>
          rw [processConfig_pair_nd hk hb1 hb2]
          rfl
      rw [hsome g, hsome 0]
    | true =>
      cases hb2 : containsCanonPt o.points q with
      | false =>
        rw [processConfig_pair_dn hk hb1 hb2, processConfig_pair_dn hk hb1 hb2]
        rfl
      | true => rw [processConfig_pair_dd hk hb1 hb2, processConfig_pair_dd hk hb1 hb2]

/-- Every member of the configuration loop comes from some configuration's
`processConfig` at some generation counter. -/
lemma interLoop_mem {sq : ℚ → ℚ} {o : Objects} {nPt : ℕ} :
    ∀ (cfgs : List Config) (g : ℕ) (os : Objects × Step), os ∈ interLoop sq o nPt cfgs g →
      ∃ c ∈ cfgs, ∃ g2, (processConfig sq o nPt c g2).1 = some os := by
  intro cfgs
  induction cfgs with
  | nil =>
    intro g os h
    simp [interLoop] at h
  | cons c rest ih =>
    intro g os h
    simp only [interLoop] at h
    cases hpc : processConfig sq o nPt c g with
    | mk fst g2 =>
      rw [hpc] at h
      cases fst with
      | some s =>
        rcases List.mem_cons.mp h with rfl | h2
        · exact ⟨c, List.mem_cons_self c rest, g, by rw [hpc]⟩
        · obtain ⟨c2, hc2, g3, hh⟩ := ih g2 os h2
          exact ⟨c2, List.mem_cons_of_mem c hc2, g3, hh⟩
      | none =>
        obtain ⟨c2, hc2, g3, hh⟩ := ih g2 os h
        exact ⟨c2, List.mem_cons_of_mem c hc2, g3, hh⟩

/-- Counting matching successors in the configuration loop: one per listed
configuration whose inputs match and which contributes a successor. -/
lemma interLoop_countP {sq : ℚ → ℚ} {o : Objects} {nPt : ℕ} (I : List String) :
    ∀ (cfgs : List Config) (g : ℕ),
      (interLoop sq o nPt cfgs g).countP
          (fun os => decide (os.2.op = OpKind.intersectionOp ∧ os.2.inputs = I)) =
        cfgs.countP (fun c =>
          decide (cfgInputs c = I) && ((processConfig sq o nPt c 0).1).isSome) := by
  intro cfgs
  induction cfgs with
  | nil =>
    intro g
    rfl
  | cons c rest ih =>
    intro g
    simp only [interLoop]
    cases hpc : processConfig sq o nPt c g with
    | mk fst g2 =>
      have hind := @processConfig_isSome_indep sq o nPt c g
      rw [hpc] at hind
      cases fst with
      | some s =>
        have hfields := processConfig_some_fields (show (processConfig sq o nPt c g).1 = some s by
          rw [hpc])
        rw [List.countP_cons, List.countP_cons, ih g2]
        have hmatch : (decide (s.2.op = OpKind.intersectionOp ∧ s.2.inputs = I)) =
            (decide (cfgInputs c = I) && ((processConfig sq o nPt c 0).1).isSome) := by
          rw [← hind]
          simp only [Option.isSome_some, Bool.and_true]
          rw [hfields.1, hfields.2.1]
          simp
        rw [hmatch]
      | none =>
        rw [List.countP_cons, ih g2]
        have hz : (decide (cfgInputs c = I) && ((processConfig sq o nPt c 0).1).isSome) =
            false := by
          rw [← hind]
          simp
        rw [hz]
        simp

/-- Every line-construction successor: its state extends the lines map by
one canonically new line under the generated id, and its step is a `Line`
step. -/
lemma line_succs_fields {sq : ℚ → ℚ} {o : Objects} {nL : ℕ} {os : Objects × Step}
    (h : os ∈ line_succs sq o nL) :
    ∃ d, containsCanonLn sq o.lines d = false ∧
      os.1 = { o with lines := assocSet o.lines (mkId .line nL) d } ∧
      os.2.op = .lineOp ∧ os.2.outType = .line := by
  unfold line_succs at h
  split at h
  · obtain ⟨ab, hab, heq⟩ := List.mem_filterMap.mp h
    cases hA : lookupA ab.1 o.points with
    | none =>
      rw [hA] at heq
      cases heq
    | some pp1 =>
      cases hB : lookupA ab.2 o.points with
      | none =>
        rw [hA, hB] at heq
        cases heq
      | some pp2 =>
        rw [hA, hB] at heq
        dsimp only at heq
        cases hc : containsCanonLn sq o.lines (construct_line_from_points pp1 pp2) with
        | true =>
          rw [show add_line sq o nL (construct_line_from_points pp1 pp2) = (o, none) from by
            simp [add_line, hc]] at heq
          cases heq
        | false =>
          rw [show add_line sq o nL (construct_line_from_points pp1 pp2) =
              ({ o with lines := (assocSet o.lines (mkId .line nL)
                  (construct_line_from_points pp1 pp2)) },
                some (mkId .line nL)) from by simp [add_line, hc]] at heq
          cases heq
          exact ⟨construct_line_from_points pp1 pp2, hc, rfl, rfl, rfl⟩
  · cases h

/-- Every circle-construction successor: its state extends the circles map
by one canonically new circle under the generated id, and its step is a
`Circle` step. -/
lemma circle_succs_fields {o : Objects} {nC : ℕ} {os : Objects × Step}
    (h : os ∈ circle_succs o nC) :
    ∃ d, containsCanonCr o.circles d = false ∧
      os.1 = { o with circles := assocSet o.circles (mkId .circle nC) d } ∧
      os.2.op = .circleOp ∧ os.2.outType = .circle := by
  unfold circle_succs at h
  split at h
  · obtain ⟨ab, hab, heq⟩ := List.mem_filterMap.mp h
    cases hA : lookupA ab.1 o.points with
    | none =>
      rw [hA] at heq
      cases heq
    | some pp1 =>
      cases hB : lookupA ab.2 o.points with
      | none =>
        rw [hA, hB] at heq
        cases heq
      | some pp2 =>
        rw [hA, hB] at heq
        dsimp only at heq
        cases hc : containsCanonCr o.circles (construct_circle_from_points pp1 pp2) with
        | true =>
          rw [show add_circle o nC (construct_circle_from_points pp1 pp2) = (o, none) from by
            simp [add_circle, hc]] at heq
          cases heq
        | false =>
          rw [show add_circle o nC (construct_circle_from_points pp1 pp2) =
              ({ o with circles := (assocSet o.circles (mkId .circle nC)
                  (construct_circle_from_points pp1 pp2)) },
                some (mkId .circle nC)) from by simp [add_circle, hc]] at heq
          cases heq
          exact ⟨construct_circle_from_points pp1 pp2, hc, rfl, rfl, rfl⟩
  · cases h

/-- If a list has exactly one element satisfying `p`, and a member `x`
satisfies both `p` and `q`, then exactly one element satisfies `p ∧ q`. -/
lemma countP_and_one {α : Type} (p q : α → Bool) :
    ∀ (l : List α) (x : α), x ∈ l → p x = true → q x = true → l.countP p = 1 →
      l.countP (fun a => p a && q a) = 1 := by
  intro l
  induction l with
  | nil =>
    intro x hx
    cases hx
  | cons a t ih =>
    intro x hx hpx hqx hc
    rw [List.countP_cons] at hc ⊢
    by_cases hpa : p a = true
    · have ht : t.countP p = 0 := by
        simp only [hpa, if_true] at hc
        omega
      have hxa : x = a := by
        rcases List.mem_cons.mp hx with h | h
        · exact h
        · exact absurd hpx (List.countP_eq_zero.mp ht x h)
      subst hxa
      have ht2 : t.countP (fun a => p a && q a) = 0 :=
        List.countP_eq_zero.mpr fun y hy hq =>
          (List.countP_eq_zero.mp ht y hy) ((Bool.and_eq_true (p y) (q y)).mp hq).1
      rw [ht2]
      simp [hpx, hqx]
    · have hx2 : x ∈ t := by
        rcases List.mem_cons.mp hx with h | h
        · subst h
          exact absurd hpx hpa
        · exact h
      have hc2 : t.countP p = 1 := by
        rw [if_neg hpa] at hc
        omega
      rw [ih x hx2 hpx hqx hc2]
      simp [hpa]

/-- C5 (confirmed).  `intersect_line_line` returns no point when
`|A₁B₂ − A₂B₁| < 1e-9`, and otherwise exactly one point, the unique common
solution of the two line equations given by Cramer's rule:
`x = (B₁C₂ − B₂C₁)/det`, `y = (A₂C₁ − A₁C₂)/det` with
`det = A₁B₂ − A₂B₁`. -/
theorem intersect_line_line_cramer (l1 l2 : LineF) :
    (|l1.A * l2.B - l2.A * l1.B| < EPSILON → intersect_line_line l1 l2 = []) ∧
    (EPSILON ≤ |l1.A * l2.B - l2.A * l1.B| →
      intersect_line_line l1 l2 =
        [⟨(l1.B * l2.C - l2.B * l1.C) / (l1.A * l2.B - l2.A * l1.B),
          (l2.A * l1.C - l1.A * l2.C) / (l1.A * l2.B - l2.A * l1.B)⟩] ∧
      ∀ p : PointF,
        (l1.A * p.x + l1.B * p.y + l1.C = 0 ∧ l2.A * p.x + l2.B * p.y + l2.C = 0) ↔
          p = ⟨(l1.B * l2.C - l2.B * l1.C) / (l1.A * l2.B - l2.A * l1.B),
               (l2.A * l1.C - l1.A * l2.C) / (l1.A * l2.B - l2.A * l1.B)⟩) := by
  set det := l1.A * l2.B - l2.A * l1.B with hdet
  constructor
  · intro h
    simp only [intersect_line_line, ← hdet, if_pos h]
  · intro h
    have hne : det ≠ 0 := by
      intro h0
      rw [h0] at h
      simp at h
      exact absurd h (not_le.2 eps_pos)
    have hx : l2.B * -l1.C - l1.B * -l2.C = l1.B * l2.C - l2.B * l1.C := by ring
    have hy : l1.A * -l2.C - l2.A * -l1.C = l2.A * l1.C - l1.A * l2.C := by ring
    refine ⟨?_, ?_⟩
    · simp only [intersect_line_line, ← hdet, if_neg (not_lt.2 h), hx, hy]
    · intro p
      constructor
      · rintro ⟨e1, e2⟩
        have hpx : p.x = (l1.B * l2.C - l2.B * l1.C) / det := by
          rw [eq_div_iff hne, hdet]
          linear_combination l2.B * e1 - l1.B * e2
        have hpy : p.y = (l2.A * l1.C - l1.A * l2.C) / det := by
          rw [eq_div_iff hne, hdet]
          linear_combination l1.A * e2 - l2.A * e1
        cases p
        simp only [PointF.mk.injEq]
        exact ⟨hpx, hpy⟩
      · rintro rfl
        constructor
        · field_simp
          rw [hdet]
          ring
        · field_simp
          rw [hdet]
          ring

/-- Witness instantiating `intersect_line_line_cramer` at the concrete
lines `x = 1` and `y = 0`, whose determinant is 1. -/
theorem intersect_line_line_cramer_witness :
    EPSILON ≤ |(1 : ℚ) * 1 - 0 * 0| ∧
      intersect_line_line ⟨1, 0, -1⟩ ⟨0, 1, 0⟩ = [⟨1, 0⟩] := by
  have h : EPSILON ≤ |(1 : ℚ) * 1 - 0 * 0| := by norm_num [EPSILON]
  refine ⟨h, ?_⟩
  have h2 := (intersect_line_line_cramer ⟨1, 0, -1⟩ ⟨0, 1, 0⟩).2 h
  rw [h2.1]
  norm_num

/-- C6 (confirmed).  For a non-degenerate line (`A² + B² ≥ ε`) and any
circle, with `d²` the squared distance from the circle's center to the
foot of the perpendicular from the center onto the line:
`intersect_line_circle` returns no point when `d² > r² + ε`, exactly the
tangent point (the foot of the perpendicular) when `|d² − r²| < ε`, and
two points otherwise (`ε = 1e-9`). -/
theorem intersect_line_circle_cases (sq : ℚ → ℚ) (l : LineF) (c : CircleF)
    (hN : EPSILON ≤ l.A * l.A + l.B * l.B) :
    (c.rsq + EPSILON < foot_dist_sq l c → intersect_line_circle sq l c = []) ∧
    (|foot_dist_sq l c - c.rsq| < EPSILON →
      intersect_line_circle sq l c = [⟨foot_x l c, foot_y l c⟩]) ∧
    (¬(c.rsq + EPSILON < foot_dist_sq l c) → ¬(|foot_dist_sq l c - c.rsq| < EPSILON) →
      (intersect_line_circle sq l c).length = 2) := by
  have hbranch : ¬(l.A * l.A + l.B * l.B < EPSILON) := not_lt.2 hN
  refine ⟨?_, ?_, ?_⟩
  · intro h
    simp only [intersect_line_circle, foot_dist_sq, foot_x, foot_y] at h ⊢
    rw [if_neg hbranch, if_pos h]
  · intro h
    simp only [intersect_line_circle, foot_dist_sq, foot_x, foot_y] at h ⊢
    have h0 : ¬(c.rsq + EPSILON <
        ((l.B * l.B * c.cx - l.A * l.B * c.cy - l.A * l.C) / (l.A * l.A + l.B * l.B) - c.cx) ^ 2 +
        ((-(l.A * l.B) * c.cx + l.A * l.A * c.cy - l.B * l.C) / (l.A * l.A + l.B * l.B) - c.cy) ^ 2) := by
      intro hgt
      have := abs_lt.1 h
      linarith [this.1, this.2]
    rw [if_neg hbranch, if_neg h0, if_pos h]
  · intro h1 h2
    simp only [intersect_line_circle, foot_dist_sq, foot_x, foot_y] at h1 h2 ⊢
    rw [if_neg hbranch, if_neg h1, if_neg h2]
    rfl

/-- Witness instantiating `intersect_line_circle_cases` at the tangent
configuration: line `x = 1` and unit circle at the origin. -/
theorem intersect_line_circle_cases_witness :
    EPSILON ≤ (1 : ℚ) * 1 + 0 * 0 ∧
      |foot_dist_sq ⟨1, 0, -1⟩ ⟨0, 0, 1⟩ - (1 : ℚ)| < EPSILON ∧
      intersect_line_circle (fun _ => 0) ⟨1, 0, -1⟩ ⟨0, 0, 1⟩ = [⟨1, 0⟩] := by
  have hN : EPSILON ≤ (1 : ℚ) * 1 + 0 * 0 := by norm_num [EPSILON]
  have ht : |foot_dist_sq ⟨1, 0, -1⟩ ⟨0, 0, 1⟩ - (1 : ℚ)| < EPSILON := by
    norm_num [foot_dist_sq, foot_x, foot_y, EPSILON]
  have h := (intersect_line_circle_cases (fun _ => 0) ⟨1, 0, -1⟩ ⟨0, 0, 1⟩ hN).2.1 ht
  refine ⟨hN, ht, ?_⟩
  rw [h]
  norm_num [foot_x, foot_y]

/-- C9 (confirmed).  The embedded `solve` is a pure function of its
inputs, so two invocations on identical inputs return the identical path
and the identical `states_explored` statistic.  This purity faithfully
reflects the Python code, whose only stateful ingredients — dict
insertion order, `heapq` pop order under the unique `(priority,
tie_breaker)` keys, and the `itertools.count()` tie breaker seeded at 0 —
are all deterministic. -/
theorem solve_deterministic (sq : ℚ → ℚ) (fuel : ℕ) (o : Objects) (tgt : TargetDef)
    (maxSteps : ℕ) :
    (solve sq fuel o tgt maxSteps).1 = (solve sq fuel o tgt maxSteps).1 ∧
    (solve sq fuel o tgt maxSteps).2 = (solve sq fuel o tgt maxSteps).2 :=
  ⟨rfl, rfl⟩

/-- Every goal return of the successor loop carries a path extended by the
producing step, hence nonempty. -/
lemma processSuccs_inl_ne_nil (sq : ℚ → ℚ) (tgt : TargetDef) :
    ∀ (succs : List (Objects × Step)) (cur : State) (g : ℕ) (path : List Step)
      (ls : LoopSt) (r : List Step × ℕ),
      processSuccs sq tgt succs cur g path ls = .inl r → r.1 ≠ [] := by
  intro succs
  induction succs with
  | nil =>
    intro cur g path ls r h
    simp [processSuccs] at h
  | cons hd tl ih =>
    intro cur g path ls r h
    obtain ⟨no, st⟩ := hd
    simp only [processSuccs] at h
    split at h
    · exact ih cur g path ls r h
    · split at h
      · exact ih cur g path ls r h
      · split at h
        · cases h
          simp
        · exact ih cur g path _ r h

/-- Every `some` result of the main loop has a nonempty path. -/
lemma solveLoop_some_ne_nil (sq : ℚ → ℚ) (tgt : TargetDef) (maxSteps : ℕ) :
    ∀ (fuel : ℕ) (ls : LoopSt) (p : List Step) (n : ℕ),
      solveLoop sq tgt maxSteps fuel ls = (some p, n) → p ≠ [] := by
  intro fuel
  induction fuel with
  | zero =>
    intro ls p n h
    simp [solveLoop] at h
  | succ f ih =>
    intro ls p n h
    simp only [solveLoop] at h
    split at h
    · simp at h
    · split at h
      · exact ih _ p n h
      · split at h
        · rename_i r hps
          cases h
          exact processSuccs_inl_ne_nil sq tgt _ _ _ _ _ _ hps
        · exact ih _ p n h

/-- C8 (confirmed).  The goal test fires only on newly created figures:
even when the initial state already contains a figure whose canonical form
equals the target's, `solve` never returns a path of length 0 — it
returns a path of length at least 1 or no path at all. -/
theorem solve_no_zero_length_path (sq : ℚ → ℚ) (fuel : ℕ) (o : Objects) (tgt : TargetDef)
    (maxSteps : ℕ) (_hpresent : targetPresentB sq o tgt = true) :
    (solve sq fuel o tgt maxSteps).1 ≠ some [] := by
  intro hcontra
  refine solveLoop_some_ne_nil sq tgt maxSteps fuel (initLoop sq o tgt) []
    ((solve sq fuel o tgt maxSteps).2) ?_ rfl
  rw [← hcontra]
  rfl

/-- Witness for `solve_no_zero_length_path`: a single known point which is
itself the target; the run returns no path (and in particular not an empty
one). -/
theorem solve_no_zero_length_path_witness :
    targetPresentB (fun _ => 0) objsP1 (.point ⟨3, 4⟩) = true ∧
      (solve (fun _ => 0) 5 objsP1 (.point ⟨3, 4⟩) 20).1 ≠ some [] :=
  ⟨by decide, solve_no_zero_length_path (fun _ => 0) 5 objsP1 (.point ⟨3, 4⟩) 20 (by decide)⟩

/-- C1 (code bug).  The heuristic is not admissible.  On the state
`objsHX` — two points `(0,0)`, `(2,0)` and the single line `x = 1` — with
target point `(1,0)`, `calculate_heuristic` returns 3 (one line is not an
"intersecting pair", so the `num_points ≥ 2` estimate applies), yet
`solve` itself reaches the target in 2 steps: the line through the two
points followed by one intersection.  Hence the returned path has length
`L = 2` while the root node has `h = 3 > 2 = L − g`, violating both forms
of the claim (the code's own docstring and the spec assert the heuristic
never overestimates). -/
theorem heuristic_overestimates :
    calculate_heuristic objsHX .point = 3 ∧
      solve sqHX 10 objsHX (.point ⟨1, 0⟩) 20 =
        (some [⟨.lineOp, ["p1", "p2"], .line, "l2"⟩,
               ⟨.intersectionOp, ["l1", "l2"], .point, "p3"⟩], 5) ∧
      (solve sqHX 10 objsHX (.point ⟨1, 0⟩) 20).1.map List.length = some 2 ∧
      (sqHX 1) ^ 2 = 1 ∧ (sqHX 4) ^ 2 = 4 ∧ 0 ≤ sqHX 1 ∧ 0 ≤ sqHX 4 := by
  decide

/-- C2 (code bug).  The counter invariant — each next-id counter strictly
greater than every used ordinal of its type — holds for the seeded initial
state but is violated by the successor that a single `solve` iteration
enqueues when an intersection adds two new points.  On the two-circle
input `objsCC` (target point `(99,99)` so the goal test does not fire),
the enqueued node's state contains the point id `p2` (ordinal 2) while its
point counter is 2, not `> 2`: `solve` advances the counter only past the
*first* new id (`search.py` lines 104-107) instead of by the number of
figures added.  The first three conjuncts replay the first loop iteration
exactly as `solveLoop` performs it; the last conjunct checks the
square-root oracle is faithful at every argument the run uses. -/
theorem counter_invariant_violated :
    counterInvB ⟨objsCC, seed_ids objsCC⟩ = true ∧
      popMin (initLoop sqCC objsCC (.point ⟨99, 99⟩)).openL =
        some (⟨1, 0, 0, ⟨objsCC, seed_ids objsCC⟩, []⟩, []) ∧
      ((openOf (processSuccs sqCC (.point ⟨99, 99⟩)
          (generate_successors sqCC ⟨objsCC, seed_ids objsCC⟩) ⟨objsCC, seed_ids objsCC⟩ 0 []
          ⟨[], [get_state_hash sqCC objsCC], 1⟩)).map
        (fun nd => (counterInvB nd.state, nd.state.next_ids.point,
          lookupA "p2" nd.state.objects.points)) = [(false, 2, some ⟨3, -4⟩)]) ∧
      (([16, 25, 36, 144] : List ℚ).all fun q =>
        decide ((sqCC q) ^ 2 = q ∧ 0 ≤ sqCC q)) = true := by
  decide

/-- C3 counterexample.  `normalize_line` is not idempotent: on the line
`(16, 63, 6500/3)` the first normalization divides by the exact norm
`√4225 = 65` and rounds `(16/65, 63/65, 100/3)` with nonzero error; the
rounded coefficients have `A² + B² = q1NI ≈ 1 − 3.7·10⁻¹¹`, and dividing
by its square root shifts the third coefficient by about `6·10⁻¹⁰` — a
whole rounding ulp — so renormalizing the canonical triple changes it
(`33.3333333333` becomes `33.3333333339`).  The final conjuncts verify
that the square-root oracle is exact at 4225 and accurate to better than
`10⁻²⁴` at `q1NI`, so the inequality is forced by any faithful square
root, not by an artefact of the oracle. -/
theorem normalize_line_not_idempotent :
    normalize_line sqNI (normalize_line sqNI lineNI) ≠ normalize_line sqNI lineNI ∧
      (normalize_line sqNI lineNI).C = 333333333333 / 10 ^ 10 ∧
      (normalize_line sqNI (normalize_line sqNI lineNI)).C = 333333333339 / 10 ^ 10 ∧
      (sqNI 4225) ^ 2 = 4225 ∧ 0 ≤ sqNI 4225 ∧
      (normalize_line sqNI lineNI).A ^ 2 + (normalize_line sqNI lineNI).B ^ 2 = q1NI ∧
      |(sqNI q1NI) ^ 2 - q1NI| < 1 / 10 ^ 24 ∧ 0 ≤ sqNI q1NI := by
  decide

/-- C3 (corrected).  Canonicalization is idempotent for points and
circles unconditionally; for lines it is idempotent whenever the
normalized coefficients `A/‖·‖, B/‖·‖, C/‖·‖` are exactly representable
at precision 10 (no rounding drift), the square-root oracle being
faithful at the norm argument and at 0 and 1.  In general the rounding
drift can change the canonical line (see
`normalize_line_not_idempotent`). -/
theorem normalize_idempotent_amended :
    (∀ p : PointF, normalize_point (normalize_point p) = normalize_point p) ∧
    (∀ c : CircleF, normalize_circle (normalize_circle c) = normalize_circle c) ∧
    (∀ (sq : ℚ → ℚ) (l : LineF),
      sq 0 = 0 → sq 1 = 1 →
      (sq (l.A ^ 2 + l.B ^ 2)) ^ 2 = l.A ^ 2 + l.B ^ 2 →
      roundP (l.A / sq (l.A ^ 2 + l.B ^ 2)) = l.A / sq (l.A ^ 2 + l.B ^ 2) →
      roundP (l.B / sq (l.A ^ 2 + l.B ^ 2)) = l.B / sq (l.A ^ 2 + l.B ^ 2) →
      roundP (l.C / sq (l.A ^ 2 + l.B ^ 2)) = l.C / sq (l.A ^ 2 + l.B ^ 2) →
      normalize_line sq (normalize_line sq l) = normalize_line sq l) := by
  refine ⟨?_, ?_, ?_⟩
  · intro p
    simp [normalize_point, roundP_roundP]
  · intro c
    simp [normalize_circle, roundP_roundP]
  · intro sq l hsq0 hsq1 hsq hA hB hC
    by_cases hlt : sq (l.A ^ 2 + l.B ^ 2) < EPSILON
    · have h1 : normalize_line sq l = ⟨0, 0, 0⟩ := by
        simp only [normalize_line, if_pos hlt]
      rw [h1]
      have h00 : ((0 : ℚ) ^ 2 + (0 : ℚ) ^ 2) = 0 := by norm_num
      simp only [normalize_line, h00, hsq0, if_pos eps_pos]
    · set n := sq (l.A ^ 2 + l.B ^ 2) with hn
      have hpos : 0 < n := lt_of_lt_of_le eps_pos (not_lt.1 hlt)
      have hne : n ≠ 0 := ne_of_gt hpos
      have hunit : (l.A / n) ^ 2 + (l.B / n) ^ 2 = 1 := by
        field_simp
        exact hsq.symm
      have hfix := signFix_roundP_fix hA hB hC
      have hg : normalize_line sq l =
          ⟨(signFix (l.A / n) (l.B / n) (l.C / n)).1,
           (signFix (l.A / n) (l.B / n) (l.C / n)).2.1,
           (signFix (l.A / n) (l.B / n) (l.C / n)).2.2⟩ := by
        simp only [normalize_line, ← hn, if_neg hlt]
        rw [hfix.1, hfix.2.1, hfix.2.2]
      rw [hg]
      set f := signFix (l.A / n) (l.B / n) (l.C / n) with hf
      have harg : f.1 ^ 2 + f.2.1 ^ 2 = 1 := by
        rw [hf, signFix_sq]
        exact hunit
      have hone : ¬((1 : ℚ) < EPSILON) := by norm_num [EPSILON]
      have hidem : signFix f.1 f.2.1 f.2.2 = f := by
        rw [hf]
        exact signFix_idem _ _ _
      simp only [normalize_line]
      rw [harg, hsq1, if_neg hone]
      simp only [div_one]
      rw [hidem, hfix.1, hfix.2.1, hfix.2.2]

/-- C7 (confirmed).  Line construction is order-independent up to
canonical form: swapping the two points negates all three coefficients,
and the sign convention of `normalize_line` maps the negated triple to the
same canonical, provided the square-root oracle is faithful at the (order
independent) norm argument `A² + B²`.  The threshold case
`|A/‖·‖| = 1e-9`, where the Python sign convention would genuinely be
order dependent, is unreachable: no rational unit vector has first
coordinate of absolute value exactly `1e-9`. -/
theorem construct_line_order_independent (sq : ℚ → ℚ) (p1 p2 : PointF)
    (hsq : (sq ((construct_line_from_points p1 p2).A ^ 2 +
        (construct_line_from_points p1 p2).B ^ 2)) ^ 2 =
      (construct_line_from_points p1 p2).A ^ 2 + (construct_line_from_points p1 p2).B ^ 2) :
    normalize_line sq (construct_line_from_points p1 p2) =
      normalize_line sq (construct_line_from_points p2 p1) := by
  set L := construct_line_from_points p1 p2 with hL
  set M := construct_line_from_points p2 p1 with hM
  have hMA : M.A = -L.A := by
    rw [hL, hM]
    simp only [construct_line_from_points]
    ring
  have hMB : M.B = -L.B := by
    rw [hL, hM]
    simp only [construct_line_from_points]
    ring
  have hMC : M.C = -L.C := by
    rw [hL, hM]
    simp only [construct_line_from_points]
    ring
  have harg : M.A ^ 2 + M.B ^ 2 = L.A ^ 2 + L.B ^ 2 := by
    rw [hMA, hMB]
    ring
  by_cases hlt : sq (L.A ^ 2 + L.B ^ 2) < EPSILON
  · have e1 : normalize_line sq L = ⟨0, 0, 0⟩ := by
      simp only [normalize_line, if_pos hlt]
    have e2 : normalize_line sq M = ⟨0, 0, 0⟩ := by
      simp only [normalize_line, harg, if_pos hlt]
    rw [e1, e2]
  · set n := sq (L.A ^ 2 + L.B ^ 2) with hn
    have hpos : 0 < n := lt_of_lt_of_le eps_pos (not_lt.1 hlt)
    have hne0 : n ≠ 0 := ne_of_gt hpos
    have hunit : (L.A / n) ^ 2 + (L.B / n) ^ 2 = 1 := by
      field_simp
      exact hsq.symm
    have hnoedge : |L.A / n| ≠ EPSILON := by
      intro habs
      have ha2 : (L.A / n) ^ 2 = EPSILON ^ 2 := by
        rw [← sq_abs, habs]
      have hb2 : (L.B / n) ^ 2 = 1 - EPSILON ^ 2 := by
        linarith [hunit, ha2]
      exact no_rat_sq_one_sub_eps_sq (L.B / n) hb2
    have hMdiv : signFix (M.A / n) (M.B / n) (M.C / n) =
        signFix (L.A / n) (L.B / n) (L.C / n) := by
      have e1 : M.A / n = -(L.A / n) := by
        rw [hMA]
        ring
      have e2 : M.B / n = -(L.B / n) := by
        rw [hMB]
        ring
      have e3 : M.C / n = -(L.C / n) := by
        rw [hMC]
        ring
      rw [e1, e2, e3]
      exact signFix_neg (L.C / n) hunit hnoedge
    simp only [normalize_line, harg, ← hn, if_neg hlt, hMdiv]

/-- Witness for `construct_line_order_independent` on the points `(0,0)`
and `(3,4)` (norm argument 25, exact square root 5). -/
theorem construct_line_order_independent_witness :
    (sqW ((construct_line_from_points ⟨0, 0⟩ ⟨3, 4⟩).A ^ 2 +
        (construct_line_from_points ⟨0, 0⟩ ⟨3, 4⟩).B ^ 2)) ^ 2 =
      (construct_line_from_points ⟨0, 0⟩ ⟨3, 4⟩).A ^ 2 +
        (construct_line_from_points ⟨0, 0⟩ ⟨3, 4⟩).B ^ 2 ∧
    normalize_line sqW (construct_line_from_points ⟨0, 0⟩ ⟨3, 4⟩) =
      normalize_line sqW (construct_line_from_points ⟨3, 4⟩ ⟨0, 0⟩) :=
  ⟨by decide, construct_line_order_independent sqW ⟨0, 0⟩ ⟨3, 4⟩ (by decide)⟩

/-- Witness for `normalize_idempotent_amended` on the line `(3, 4, 1)`,
whose canonical `(0.6, 0.8, 0.2)` is exactly representable. -/
theorem normalize_idempotent_amended_witness :
    sqW 0 = 0 ∧ sqW 1 = 1 ∧
      (sqW ((3 : ℚ) ^ 2 + 4 ^ 2)) ^ 2 = (3 : ℚ) ^ 2 + 4 ^ 2 ∧
      roundP ((3 : ℚ) / sqW ((3 : ℚ) ^ 2 + 4 ^ 2)) = (3 : ℚ) / sqW ((3 : ℚ) ^ 2 + 4 ^ 2) ∧
      normalize_line sqW (normalize_line sqW ⟨3, 4, 1⟩) = normalize_line sqW ⟨3, 4, 1⟩ := by
  refine ⟨by decide, by decide, by decide, by decide, ?_⟩
  exact normalize_idempotent_amended.2.2 sqW ⟨3, 4, 1⟩ (by decide) (by decide) (by decide)
    (by decide) (by decide) (by decide)

/-- C4 counterexample.  For a pair whose kernel returns count 2 but both
of whose intersection points are already canonically present,
`generate_successors` produces *no* successor for that pair — not
"exactly one" as the claim states.  The state `objsCC2` holds the circles
`c1`, `c2` and both their intersection points `(3,4)`, `(3,-4)`. -/
theorem intersection_pair_no_successor :
    (intersect_circle_circle sqCC ⟨0, 0, 25⟩ ⟨6, 0, 25⟩).length = 2 ∧
      lookupA "c1" objsCC2.circles = some ⟨0, 0, 25⟩ ∧
      lookupA "c2" objsCC2.circles = some ⟨6, 0, 25⟩ ∧
      ((generate_successors sqCC ⟨objsCC2, ⟨3, 1, 3⟩⟩).filter
        fun os => decide (os.2.inputs = ["c1", "c2"])) = [] := by
  decide

/-- C4 (corrected).  For a pair whose intersection kernel returns two
points: when both points are already canonically present there is no
successor for the pair; otherwise there is exactly one successor, built by
a single `Intersection` step whose output id is the first newly produced
point id (`p⟨next+gen⟩`), whose state receives both points when both are
canonically new and only the genuinely new one otherwise; and the pair
never yields two separate one-point successors — its contribution to
`generate_successors` is exactly one entry (given that the pair's id list
identifies it uniquely among the configurations). -/
theorem intersection_pair_successor (sq : ℚ → ℚ) (o : Objects) (next : NextIds) (cfg : Config)
    (gen : ℕ) (p1 p2 : PointF) (hker : config_kernel sq o cfg = [p1, p2]) :
    (containsCanonPt o.points p1 = true → containsCanonPt o.points p2 = true →
      processConfig sq o next.point cfg gen = (none, gen)) ∧
    (containsCanonPt o.points p1 = false →
      containsCanonPt (assocSet o.points (mkId .point (next.point + gen)) p1) p2 = false →
      processConfig sq o next.point cfg gen =
        (some ({ o with points := (assocSet
            (assocSet o.points (mkId .point (next.point + gen)) p1)
            (mkId .point (next.point + gen + 1)) p2) },
          ⟨.intersectionOp, cfgInputs cfg, .point, mkId .point (next.point + gen)⟩),
          gen + 2)) ∧
    (containsCanonPt o.points p1 = false →
      containsCanonPt (assocSet o.points (mkId .point (next.point + gen)) p1) p2 = true →
      processConfig sq o next.point cfg gen =
        (some ({ o with points := (assocSet o.points (mkId .point (next.point + gen)) p1) },
          ⟨.intersectionOp, cfgInputs cfg, .point, mkId .point (next.point + gen)⟩),
          gen + 1)) ∧
    (containsCanonPt o.points p1 = true → containsCanonPt o.points p2 = false →
      processConfig sq o next.point cfg gen =
        (some ({ o with points := (assocSet o.points (mkId .point (next.point + gen)) p2) },
          ⟨.intersectionOp, cfgInputs cfg, .point, mkId .point (next.point + gen)⟩),
          gen + 1)) ∧
    (cfg ∈ intersection_configs o →
      (intersection_configs o).countP (fun c => decide (cfgInputs c = cfgInputs cfg)) = 1 →
      (containsCanonPt o.points p1 = false ∨ containsCanonPt o.points p2 = false) →
      (generate_successors sq ⟨o, next⟩).countP
        (fun os => decide (os.2.op = OpKind.intersectionOp ∧ os.2.inputs = cfgInputs cfg)) =
        1) := by
  refine ⟨fun h1 h2 => processConfig_pair_dd hker h1 h2 gen,
    fun h1 h2 => processConfig_pair_nn hker h1 h2,
    fun h1 h2 => processConfig_pair_nd hker h1 h2,
    fun h1 h2 => processConfig_pair_dn hker h1 h2 gen, ?_⟩
  intro hmem hcount hnew
  have hsome : ((processConfig sq o next.point cfg 0).1).isSome = true := by
    cases hb1 : containsCanonPt o.points p1 with
    | false =>
      cases hb2 : containsCanonPt (assocSet o.points (mkId .point (next.point + 0)) p1) p2 with
      | false =>
        rw [processConfig_pair_nn hker hb1 hb2]
        rfl
      | true =>
        rw [processConfig_pair_nd hker hb1 hb2]
        rfl
    | true =>
      cases hb2 : containsCanonPt o.points p2 with
      | false =>
        rw [processConfig_pair_dn hker hb1 hb2 0]
        rfl
      | true =>
        rcases hnew with h | h
        · rw [hb1] at h
          cases h
        · rw [hb2] at h
          cases h
  show ((interLoop sq o next.point (intersection_configs o) 0 ++
      line_succs sq o next.line ++ circle_succs o next.circle).countP _) = 1
  rw [List.countP_append, List.countP_append]
  have hline : (line_succs sq o next.line).countP
      (fun os => decide (os.2.op = OpKind.intersectionOp ∧ os.2.inputs = cfgInputs cfg)) = 0 :=
    List.countP_eq_zero.mpr fun os hos => by
      obtain ⟨d, -, -, hop, -⟩ := line_succs_fields hos
      simp [hop]
  have hcircle : (circle_succs o next.circle).countP
      (fun os => decide (os.2.op = OpKind.intersectionOp ∧ os.2.inputs = cfgInputs cfg)) = 0 :=
    List.countP_eq_zero.mpr fun os hos => by
      obtain ⟨d, -, -, hop, -⟩ := circle_succs_fields hos
      simp [hop]
  rw [hline, hcircle, interLoop_countP (cfgInputs cfg) (intersection_configs o) 0]
  simpa using countP_and_one (fun c => decide (cfgInputs c = cfgInputs cfg))
    (fun c => ((processConfig sq o next.point c 0).1).isSome) (intersection_configs o) cfg
    hmem (by simp) hsome hcount

/-- Witness for `intersection_pair_successor` on the two-circle state
`objsCC` with its seeded counters: the pair `(c1, c2)` meets in the two
new points `(3,4)` and `(3,-4)` and contributes exactly one successor. -/
theorem intersection_pair_successor_witness :
    config_kernel sqCC objsCC (Config.cc "c1" "c2") = [⟨3, 4⟩, ⟨3, -4⟩] ∧
      (generate_successors sqCC ⟨objsCC, ⟨1, 1, 3⟩⟩).countP
        (fun os => decide (os.2.op = OpKind.intersectionOp ∧
          os.2.inputs = cfgInputs (Config.cc "c1" "c2"))) = 1 := by
  refine ⟨by decide, ?_⟩
  exact (intersection_pair_successor sqCC objsCC ⟨1, 1, 3⟩ (Config.cc "c1" "c2") 0
    ⟨3, 4⟩ ⟨3, -4⟩ (by decide)).2.2.2.2 (by decide) (by decide) (Or.inl (by decide))

/-- Storing under a fresh key makes the key readable and preserves every
existing binding. -/
lemma lookupA_assocSet_fresh {β : Type} {l : List (String × β)} {k : String} (v : β)
    (h : lookupA k l = none) :
    lookupA k (assocSet l k v) = some v ∧
      ∀ k2 v2, lookupA k2 l = some v2 → lookupA k2 (assocSet l k v) = some v2 := by
  rw [assocSet_fresh v h]
  constructor
  · rw [lookupA_append_right _ h]
    simp [lookupA]
  · exact fun k2 v2 h2 => lookupA_append_left _ h2

/-- Frame of a configuration successor under a dominating point counter:
lines and circles untouched, every point binding preserved, and a
canonically new point readable in the new state. -/
lemma processConfig_grow {sq : ℚ → ℚ} {o : Objects} {nPt : ℕ} {c : Config} {g : ℕ}
    {os : Objects × Step} (h : (processConfig sq o nPt c g).1 = some os)
    (hfresh : ∀ n, nPt ≤ n → lookupA (mkId .point n) o.points = none) :
    os.1.lines = o.lines ∧ os.1.circles = o.circles ∧
    (∀ k v, lookupA k o.points = some v → lookupA k os.1.points = some v) ∧
    ∃ d, containsCanonPt o.points d = false ∧ ∃ k, lookupA k os.1.points = some d := by
  rcases config_kernel_shape sq o c with hk | ⟨p, hk⟩ | ⟨p, q, hk⟩
  · rw [processConfig_nil hk] at h
    cases h
  · cases hb : containsCanonPt o.points p with
    | true =>
      rw [processConfig_single_dup hk hb] at h
      cases h
    | false =>
      rw [processConfig_single_new hk hb] at h
      cases h
      obtain ⟨hnew, hpres⟩ := lookupA_assocSet_fresh p (hfresh (nPt + g) (Nat.le_add_right _ _))
      exact ⟨rfl, rfl, hpres, p, hb, mkId .point (nPt + g), hnew⟩
  · cases hb1 : containsCanonPt o.points p with
    | true =>
      cases hb2 : containsCanonPt o.points q with
      | true =>
        rw [processConfig_pair_dd hk hb1 hb2] at h
        cases h
      | false =>
        rw [processConfig_pair_dn hk hb1 hb2] at h
        cases h
        obtain ⟨hnew, hpres⟩ :=
          lookupA_assocSet_fresh q (hfresh (nPt + g) (Nat.le_add_right _ _))
        exact ⟨rfl, rfl, hpres, q, hb2, mkId .point (nPt + g), hnew⟩
    | false =>
      cases hb2 : containsCanonPt (assocSet o.points (mkId .point (nPt + g)) p) q with
      | true =>
        rw [processConfig_pair_nd hk hb1 hb2] at h
        cases h
        obtain ⟨hnew, hpres⟩ :=
          lookupA_assocSet_fresh p (hfresh (nPt + g) (Nat.le_add_right _ _))
        exact ⟨rfl, rfl, hpres, p, hb1, mkId .point (nPt + g), hnew⟩
      | false =>
        rw [processConfig_pair_nn hk hb1 hb2] at h
        cases h
        have h1 := hfresh (nPt + g) (Nat.le_add_right _ _)
        obtain ⟨hnew1, hpres1⟩ := lookupA_assocSet_fresh p h1
        have hne : mkId ObjType.point (nPt + g) ≠ mkId ObjType.point (nPt + g + 1) := by
          intro heq
          have := mkId_inj heq
          omega
        have h2 : lookupA (mkId .point (nPt + g + 1))
            (assocSet o.points (mkId .point (nPt + g)) p) = none := by
          rw [assocSet_fresh p h1, lookupA_append_right _ (hfresh (nPt + g + 1) (by omega))]
          simp [lookupA, hne]
        obtain ⟨hnew2, hpres2⟩ := lookupA_assocSet_fresh q h2
        exact ⟨rfl, rfl, fun k v hv => hpres2 k v (hpres1 k v hv), p, hb1,
          mkId .point (nPt + g), hpres2 _ _ hnew1⟩

/-- C10 (corrected, counterexample).  With a stale point counter the claim
fails: the state holds `p1 = (5,5)` but its point counter is 1, so the
only successor (intersecting the two lines at `(1,0)`) reuses the id `p1`
and overwrites the existing point — the pair `("p1", (5,5))` of the source
state is not present in the successor state. -/
theorem successor_overwrites_stale_id :
    counterInvB stStale = false ∧
      lookupA "p1" stStale.objects.points = some ⟨5, 5⟩ ∧
      (generate_successors (fun _ => 0) stStale).map (fun os => lookupA "p1" os.1.points) =
        [some ⟨1, 0⟩] := by
  decide

/-- C10 (corrected).  Provided each next-id counter strictly dominates
every parsed ordinal of its type (the invariant `solve` seeds, cf. C2),
every successor produced by `generate_successors` only grows the state:
every `(id, figure)` binding of the source state is readable unchanged in
the successor state, the sub-mappings of the two types other than the
step's output type are equal to the source's, and the successor contains a
figure of the output type whose canonical form is new for that type. -/
theorem successors_preserve_frame (sq : ℚ → ℚ) (o : Objects) (next : NextIds)
    (hP : (o.points.all fun kv => ordBelowB kv.1 next.point) = true)
    (hL : (o.lines.all fun kv => ordBelowB kv.1 next.line) = true)
    (hC : (o.circles.all fun kv => ordBelowB kv.1 next.circle) = true) :
    ∀ os ∈ generate_successors sq ⟨o, next⟩,
      ((∀ k v, lookupA k o.points = some v → lookupA k os.1.points = some v) ∧
       (∀ k v, lookupA k o.lines = some v → lookupA k os.1.lines = some v) ∧
       (∀ k v, lookupA k o.circles = some v → lookupA k os.1.circles = some v)) ∧
      (os.2.outType = .point → os.1.lines = o.lines ∧ os.1.circles = o.circles) ∧
      (os.2.outType = .line → os.1.points = o.points ∧ os.1.circles = o.circles) ∧
      (os.2.outType = .circle → os.1.points = o.points ∧ os.1.lines = o.lines) ∧
      (os.2.outType = .point → ∃ d, containsCanonPt o.points d = false ∧
        ∃ k, lookupA k os.1.points = some d) ∧
      (os.2.outType = .line → ∃ d, containsCanonLn sq o.lines d = false ∧
        ∃ k, lookupA k os.1.lines = some d) ∧
      (os.2.outType = .circle → ∃ d, containsCanonCr o.circles d = false ∧
        ∃ k, lookupA k os.1.circles = some d) := by
  intro os hmem
  simp only [generate_successors] at hmem
  rcases List.mem_append.mp hmem with hmem2 | hcirc
  · rcases List.mem_append.mp hmem2 with hint | hline
    · obtain ⟨c, -, g2, hpc⟩ := interLoop_mem (intersection_configs o) 0 os hint
      obtain ⟨-, -, hT⟩ := processConfig_some_fields hpc
      obtain ⟨hlns, hcrs, hpres, d, hd, k, hk⟩ :=
        processConfig_grow hpc (fun n hn => lookupA_mkId_none .point o.points hP n hn)
      refine ⟨⟨hpres, fun k2 v h => by rw [hlns]; exact h,
        fun k2 v h => by rw [hcrs]; exact h⟩, fun _ => ⟨hlns, hcrs⟩,
        fun hE => ?_, fun hE => ?_, fun _ => ⟨d, hd, k, hk⟩,
        fun hE => ?_, fun hE => ?_⟩ <;>
        (rw [hT] at hE; exact ObjType.noConfusion hE)
    · obtain ⟨d, hd, hos1, -, hT⟩ := line_succs_fields hline
      obtain ⟨hnew, hpres⟩ := lookupA_assocSet_fresh d
        (lookupA_mkId_none .line o.lines hL next.line (Nat.le_refl _))
      refine ⟨⟨fun k v h => by rw [hos1]; exact h,
        fun k v h => by rw [hos1]; exact hpres k v h,
        fun k v h => by rw [hos1]; exact h⟩,
        fun hE => ?_, fun _ => ⟨by rw [hos1], by rw [hos1]⟩, fun hE => ?_,
        fun hE => ?_,
        fun _ => ⟨d, hd, mkId .line next.line, by rw [hos1]; exact hnew⟩,
        fun hE => ?_⟩ <;>
        (rw [hT] at hE; exact ObjType.noConfusion hE)
  · obtain ⟨d, hd, hos1, -, hT⟩ := circle_succs_fields hcirc
    obtain ⟨hnew, hpres⟩ := lookupA_assocSet_fresh d
      (lookupA_mkId_none .circle o.circles hC next.circle (Nat.le_refl _))
    refine ⟨⟨fun k v h => by rw [hos1]; exact h,
      fun k v h => by rw [hos1]; exact h,
      fun k v h => by rw [hos1]; exact hpres k v h⟩,
      fun hE => ?_, fun hE => ?_, fun _ => ⟨by rw [hos1], by rw [hos1]⟩,
      fun hE => ?_, fun hE => ?_,
      fun _ => ⟨d, hd, mkId .circle next.circle, by rw [hos1]; exact hnew⟩⟩ <;>
      (rw [hT] at hE; exact ObjType.noConfusion hE)

/-- Witness for `successors_preserve_frame` on the two-circle state
`objsCC` with its seeded counters: the single intersection successor keeps
the binding of `c1`, leaves the lines map equal, and contains the
canonically new point `(3, 4)` under `p1`. -/
theorem successors_preserve_frame_witness :
    (⟨⟨[("p1", ⟨3, 4⟩), ("p2", ⟨3, -4⟩)], [],
        [("c1", ⟨0, 0, 25⟩), ("c2", ⟨6, 0, 25⟩)]⟩,
      ⟨.intersectionOp, ["c1", "c2"], .point, "p1"⟩⟩ : Objects × Step) ∈
        generate_successors sqCC ⟨objsCC, ⟨1, 1, 3⟩⟩ ∧
    lookupA "c1" (⟨[("p1", ⟨3, 4⟩), ("p2", ⟨3, -4⟩)], [],
        [("c1", ⟨0, 0, 25⟩), ("c2", ⟨6, 0, 25⟩)]⟩ : Objects).circles = some ⟨0, 0, 25⟩ ∧
    (⟨[("p1", ⟨3, 4⟩), ("p2", ⟨3, -4⟩)], [],
        [("c1", ⟨0, 0, 25⟩), ("c2", ⟨6, 0, 25⟩)]⟩ : Objects).lines = objsCC.lines := by
  have hmem : (⟨⟨[("p1", ⟨3, 4⟩), ("p2", ⟨3, -4⟩)], [],
      [("c1", ⟨0, 0, 25⟩), ("c2", ⟨6, 0, 25⟩)]⟩,
      ⟨.intersectionOp, ["c1", "c2"], .point, "p1"⟩⟩ : Objects × Step) ∈
      generate_successors sqCC ⟨objsCC, ⟨1, 1, 3⟩⟩ := by decide
  have h := successors_preserve_frame sqCC objsCC ⟨1, 1, 3⟩ (by decide) (by decide) (by decide)
    _ hmem
  exact ⟨hmem, h.1.2.2 "c1" ⟨0, 0, 25⟩ (by decide), (h.2.1 rfl).1⟩

end GeoSolver
